import Mathlib

/-!
Verification of the product-extraction and hybrid-retrieval core of the
rag-assistant project.  The sources `app/extraction/product_extractor.py` and
`app/vectorstore/hybrid_retriever.py` are shallowly embedded: text is
`List Char`, the `float` confidence arithmetic is modelled exactly over `ℚ`,
the `re` module usage is modelled by an executable backtracking matcher with
Python's leftmost / greedy / ordered-alternation semantics, and the external
collaborators (ChromaDB query responses, the BM25 scoring backend, the
`uuid` / `md5` + clock id generation) enter as explicit parameters.
-/

namespace RagAssist

/-- Texts are lists of characters. -/
abbrev Str := List Char

/-- A Lean string literal as a character list. -/
def str (s : String) : Str := s.data

/-- Python whitespace (`str.strip`, regex `\s`), ASCII fragment. -/
def isPySpace (c : Char) : Bool :=
  c == ' ' || c == '\t' || c == '\n' || c == '\r' || c == '\x0b' || c == '\x0c'

def isAsciiUpper (c : Char) : Bool := 'A' ≤ c && c ≤ 'Z'

def isAsciiLower (c : Char) : Bool := 'a' ≤ c && c ≤ 'z'

def isAsciiLetter (c : Char) : Bool := isAsciiUpper c || isAsciiLower c

def isAsciiDigit (c : Char) : Bool := '0' ≤ c && c ≤ '9'

/-- Latin-1 uppercase letters (À–Þ except ×). -/
def isLatin1Upper (c : Char) : Bool :=
  0xC0 ≤ c.toNat && c.toNat ≤ 0xDE && c.toNat ≠ 0xD7

/-- Latin-1 lowercase letters (ß–ÿ except ÷). -/
def isLatin1Lower (c : Char) : Bool :=
  0xDF ≤ c.toNat && c.toNat ≤ 0xFF && c.toNat ≠ 0xF7

def isUpperChar (c : Char) : Bool := isAsciiUpper c || isLatin1Upper c

def isLowerChar (c : Char) : Bool := isAsciiLower c || isLatin1Lower c

def isCasedChar (c : Char) : Bool := isUpperChar c || isLowerChar c

/-- Python `\w` over the ASCII and Latin-1 range. -/
def isWordChar (c : Char) : Bool :=
  isAsciiLetter c || isAsciiDigit c || c == '_' || isLatin1Upper c || isLatin1Lower c

/-- Python `str.upper`, characterwise, on the ASCII and Latin-1 range
(the `ß`→`SS` and `ÿ`→`Ÿ` special cases are not needed by any text here). -/
def pyUpperChar (c : Char) : Char :=
  if isAsciiLower c then Char.ofNat (c.toNat - 0x20)
  else if isLatin1Lower c && c.toNat ≠ 0xDF && c.toNat ≠ 0xFF then Char.ofNat (c.toNat - 0x20)
  else c

/-- Python `str.lower`, characterwise, on the ASCII and Latin-1 range. -/
def pyLowerChar (c : Char) : Char :=
  if isAsciiUpper c then Char.ofNat (c.toNat + 0x20)
  else if isLatin1Upper c then Char.ofNat (c.toNat + 0x20)
  else c

/-- Case folding used for `re.IGNORECASE` comparisons. -/
def foldChar (c : Char) : Char := pyLowerChar c

def pyUpper (s : Str) : Str := s.map pyUpperChar

def pyLower (s : Str) : Str := s.map pyLowerChar

/-- Python `str.strip()`. -/
def pyStrip (s : Str) : Str :=
  ((s.dropWhile isPySpace).reverse.dropWhile isPySpace).reverse

/-- Python `str.isupper()`: at least one cased character and no lowercase one. -/
def pyIsUpper (s : Str) : Bool :=
  s.any isCasedChar && s.all (fun c => !isLowerChar c)

/-- Python `text.split(sep)` for a single-character separator `\n`. -/
def splitOnNL : Str → List Str
  | [] => [[]]
  | c :: rest =>
    let r := splitOnNL rest
    if c == '\n' then [] :: r
    else
      match r with
      | [] => [[c]]
      | h :: t => (c :: h) :: t

/-- Does `pat` occur (case-insensitively) at the head of `s`? -/
def isPrefixCI : Str → Str → Bool
  | [], _ => true
  | _ :: _, [] => false
  | p :: ps, c :: cs => foldChar p == foldChar c && isPrefixCI ps cs

/-- Helper for `countOccCI`, with explicit fuel. -/
def countOccCIAux (pat : Str) : Nat → Str → Nat
  | 0, _ => 0
  | _ + 1, [] => if pat.isEmpty then 1 else 0
  | fuel + 1, c :: cs =>
    if !pat.isEmpty && isPrefixCI pat (c :: cs) then
      1 + countOccCIAux pat fuel (List.drop (pat.length - 1) cs)
    else countOccCIAux pat fuel cs

/-- The number of matches of `re.findall(re.escape(pat), text, re.IGNORECASE)`:
leftmost, non-overlapping, case-insensitive occurrences of the literal `pat`. -/
def countOccCI (pat text : Str) : Nat :=
  countOccCIAux pat (text.length + 1) text

/-! ### A stable descending sort, modelling Python `sorted(key, reverse=True)` -/

/-- Stable insertion into a list sorted descending by `key`. -/
def insertDesc {α : Type} (key : α → ℚ) (x : α) : List α → List α
  | [] => [x]
  | y :: ys => if key y ≤ key x then x :: y :: ys else y :: insertDesc key x ys

/-- Stable descending sort by `key`: Python's `sorted(l, key, reverse=True)`. -/
def sortDesc {α : Type} (key : α → ℚ) : List α → List α
  | [] => []
  | x :: xs => insertDesc key x (sortDesc key xs)

/-- The output of a descending sort, as a `Pairwise` statement. -/
def SortedDesc {α : Type} (key : α → ℚ) (l : List α) : Prop :=
  l.Pairwise (fun a b => key b ≤ key a)

theorem insertDesc_perm {α : Type} (key : α → ℚ) (x : α) (l : List α) :
    List.Perm (insertDesc key x l) (x :: l) := by
  induction l with
  | nil => exact List.Perm.refl _
  | cons y ys ih =>
    rw [insertDesc]
    by_cases h : key y ≤ key x
    · rw [if_pos h]
    · rw [if_neg h]
      exact (ih.cons y).trans (List.Perm.swap x y ys)

theorem sortDesc_perm {α : Type} (key : α → ℚ) (l : List α) :
    List.Perm (sortDesc key l) l := by
  induction l with
  | nil => exact List.Perm.refl _
  | cons x xs ih =>
    exact (insertDesc_perm key x (sortDesc key xs)).trans (ih.cons x)

theorem mem_insertDesc {α : Type} (key : α → ℚ) (x : α) (l : List α) (z : α) :
    z ∈ insertDesc key x l ↔ z = x ∨ z ∈ l := by
  have h := (insertDesc_perm key x l).mem_iff (a := z)
  simpa using h

theorem insertDesc_sorted {α : Type} (key : α → ℚ) (x : α) (l : List α)
    (hl : SortedDesc key l) : SortedDesc key (insertDesc key x l) := by
  induction l with
  | nil => simp [insertDesc, SortedDesc]
  | cons y ys ih =>
    unfold SortedDesc at hl
    rw [List.pairwise_cons] at hl
    rw [insertDesc]
    by_cases h : key y ≤ key x
    · rw [if_pos h]
      unfold SortedDesc
      rw [List.pairwise_cons]
      refine ⟨?_, ?_⟩
      · intro z hz
        rcases List.mem_cons.mp hz with rfl | hz
        · exact h
        · exact le_trans (hl.1 z hz) h
      · rw [List.pairwise_cons]
        exact hl
    · rw [if_neg h]
      unfold SortedDesc
      rw [List.pairwise_cons]
      refine ⟨?_, ih hl.2⟩
      intro z hz
      rcases (mem_insertDesc key x ys z).mp hz with rfl | hz
      · exact le_of_lt (lt_of_not_le h)
      · exact hl.1 z hz

theorem sortDesc_sorted {α : Type} (key : α → ℚ) (l : List α) :
    SortedDesc key (sortDesc key l) := by
  induction l with
  | nil => simp [sortDesc, SortedDesc]
  | cons x xs ih => exact insertDesc_sorted key x (sortDesc key xs) ih

/-! ### The regular-expression engine

Abstract syntax for the expressions appearing in the source, with Python
`re` semantics: ordered alternation, greedy counted repetition, capture
groups, word boundaries and an end-of-input anchor. -/

inductive RE where
  | eps : RE
  | cls (p : Char → Bool) : RE
  | cat (a b : RE) : RE
  | alt (a b : RE) : RE
  | rep (a : RE) (lo : Nat) (hi : Option Nat) : RE
  | grp (idx : Nat) (a : RE) : RE
  | wb : RE
  | eos : RE

/-- Capture environments: group index ↦ captured text (last assignment wins,
as in Python). -/
abbrev Caps := List (Nat × Str)

def capSet (i : Nat) (v : Str) : Caps → Caps
  | [] => [(i, v)]
  | (j, w) :: rest => if j == i then (i, v) :: rest else (j, w) :: capSet i v rest

def capGet (caps : Caps) (i : Nat) : Option Str :=
  match caps with
  | [] => none
  | (j, w) :: rest => if j == i then some w else capGet rest i

def reSize : RE → Nat
  | .eps | .wb | .eos => 1
  | .cls _ => 1
  | .cat a b => reSize a + reSize b + 1
  | .alt a b => reSize a + reSize b + 1
  | .rep a _ _ => reSize a + 1
  | .grp _ a => reSize a + 1

/-- Backtracking matcher in continuation-passing style.  `prev` is the
character just before the current position (for `\b`); `k` is the
continuation.  Alternation is tried left to right and repetition is greedy,
giving Python `re`'s preference order; `fuel` bounds the call depth and is
chosen large enough by the wrappers below.  An iteration of an unbounded
repetition must consume input (Python also stops repeating on an empty
match). -/
def mtch : Nat → RE → Option Char → Str → Caps →
    (Option Char → Str → Caps → Option (Str × Caps)) → Option (Str × Caps)
  | 0, _, _, _, _, _ => none
  | _ + 1, .eps, prev, s, caps, k => k prev s caps
  | _ + 1, .cls p, _, s, caps, k =>
    match s with
    | [] => none
    | c :: rest => if p c then k (some c) rest caps else none
  | fuel + 1, .cat a b, prev, s, caps, k =>
    mtch fuel a prev s caps (fun p2 s2 c2 => mtch fuel b p2 s2 c2 k)
  | fuel + 1, .alt a b, prev, s, caps, k =>
    match mtch fuel a prev s caps k with
    | some r => some r
    | none => mtch fuel b prev s caps k
  | fuel + 1, .rep a lo hi, prev, s, caps, k =>
    match lo with
    | m + 1 =>
      mtch fuel a prev s caps (fun p2 s2 c2 =>
        mtch fuel (.rep a m (hi.map (· - 1))) p2 s2 c2 k)
    | 0 =>
      match hi with
      | some 0 => k prev s caps
      | _ =>
        match mtch fuel a prev s caps (fun p2 s2 c2 =>
            if s2.length < s.length then
              mtch fuel (.rep a 0 (hi.map (· - 1))) p2 s2 c2 k
            else none) with
        | some r => some r
        | none => k prev s caps
  | fuel + 1, .grp i a, prev, s, caps, k =>
    mtch fuel a prev s caps (fun p2 s2 c2 =>
      k p2 s2 (capSet i (s.take (s.length - s2.length)) c2))
  | _ + 1, .wb, prev, s, caps, k =>
    let before := match prev with | none => false | some c => isWordChar c
    let after := match s with | [] => false | c :: _ => isWordChar c
    if before != after then k prev s caps else none
  | _ + 1, .eos, prev, s, caps, k =>
    match s with
    | [] => k prev s caps
    | _ :: _ => none

/-- A call-depth bound sufficient for `mtch` on input `s`. -/
def reFuel (r : RE) (s : Str) : Nat :=
  (s.length + 16) * (reSize r + 16) * 4

/-- Match `r` at offset `pos` of `text` (Python match at a fixed position);
returns the match length and the captures. -/
def matchAtFrom (r : RE) (text : Str) (pos : Nat) : Option (Nat × Caps) :=
  let s := text.drop pos
  let prev := if pos == 0 then none else (text.drop (pos - 1)).head?
  match mtch (reFuel r s) r prev s [] (fun _ s2 c2 => some (s2, c2)) with
  | some (s2, caps) => some (s.length - s2.length, caps)
  | none => none

/-- Helper for `findIter`, with explicit fuel (the scan position strictly
increases, so `text.length + 1` steps suffice). -/
def findIterAux (r : RE) (text : Str) : Nat → Nat → List (Nat × Nat × Caps)
  | 0, _ => []
  | fuel + 1, pos =>
    if pos > text.length then []
    else
      match matchAtFrom r text pos with
      | some (len, caps) =>
        (pos, len, caps) ::
          findIterAux r text fuel (if len == 0 then pos + 1 else pos + len)
      | none => findIterAux r text fuel (pos + 1)

/-- Python `re.finditer`: leftmost, non-overlapping matches, scanning left to
right; an empty match advances the scan by one. -/
def findIter (r : RE) (text : Str) : List (Nat × Nat × Caps) :=
  findIterAux r text (text.length + 1) 0

/-- The capture environments of all matches. -/
def findCaps (r : RE) (text : Str) : List Caps :=
  (findIter r text).map (fun m => m.2.2)

/-- Python `re.match(r, s)` as a Bool (anchored at the start). -/
def reMatchB (r : RE) (text : Str) : Bool :=
  (matchAtFrom r text 0).isSome

/-- Python `re.search(r, s)` as a Bool. -/
def reSearchB (r : RE) (text : Str) : Bool :=
  !(findIter r text).isEmpty

/-- Helper for `reSplit`: cut `text` at the listed match spans. -/
def reSplitAux (text : Str) : List (Nat × Nat × Caps) → Nat → List Str
  | [], start => [text.drop start]
  | (pos, len, _) :: rest, start =>
    (text.drop start).take (pos - start) :: reSplitAux text rest (pos + len)

/-- Python `re.split` for patterns without capture groups: the pieces of
`text` between the non-overlapping matches. -/
def reSplit (r : RE) (text : Str) : List Str :=
  reSplitAux text (findIter r text) 0

/-! ### Combinators used to transcribe the source's patterns -/

def rcat : List RE → RE
  | [] => .eps
  | [r] => r
  | r :: rest => .cat r (rcat rest)

/-- Ordered alternation; the empty list never matches. -/
def ralt : List RE → RE
  | [] => .cls (fun _ => false)
  | [r] => r
  | r :: rest => .alt r (ralt rest)

def rlit (w : Str) : RE := rcat (w.map (fun c => .cls (fun x => x == c)))

/-- Case-insensitive literal (under `re.IGNORECASE`). -/
def rlitCI (w : Str) : RE :=
  rcat (w.map (fun c => .cls (fun x => foldChar x == foldChar c)))

def rstar (a : RE) : RE := .rep a 0 none

def rplus (a : RE) : RE := .rep a 1 none

def ropt (a : RE) : RE := .rep a 0 (some 1)

/-! ### The source's patterns (`product_extractor.py`)

Each definition transcribes one regular expression literal; the comment above
it quotes the Python source.  `re.IGNORECASE` (the `(?i)` prefix) makes a
letter class match both cases and literals case-insensitive. -/

/-- `[\s:]` -/
def isSpaceColon (c : Char) : Bool := isPySpace c || c == ':'

/-- `(?i)(?:marque|brand|fabricant|manufacturer)[\s:]*([A-Z][A-Za-z\s&-]+)` -/
def brandPrefixRE : RE :=
  rcat [ralt [rlitCI (str "marque"), rlitCI (str "brand"), rlitCI (str "fabricant"),
              rlitCI (str "manufacturer")],
        rstar (.cls isSpaceColon),
        .grp 1 (rcat [.cls isAsciiLetter,
                      rplus (.cls (fun c => isAsciiLetter c || isPySpace c || c == '&' || c == '-'))])]

/-- `\b([A-Z]{2,}(?:\s+[A-Z]{2,})*)\b` -/
def brandCapsRE : RE :=
  rcat [.wb,
        .grp 1 (rcat [.rep (.cls isAsciiUpper) 2 none,
                      rstar (rcat [rplus (.cls isPySpace), .rep (.cls isAsciiUpper) 2 none])]),
        .wb]

/-- `\b([A-Z][a-z]+(?:\s+[A-Z][a-z]+)*)\b` -/
def brandMixedRE : RE :=
  rcat [.wb,
        .grp 1 (rcat [.cls isAsciiUpper, rplus (.cls isAsciiLower),
                      rstar (rcat [rplus (.cls isPySpace), .cls isAsciiUpper,
                                   rplus (.cls isAsciiLower)])]),
        .wb]

/-- `[A-Za-z0-9&-]` -/
def isSymbolChar (c : Char) : Bool :=
  isAsciiLetter c || isAsciiDigit c || c == '&' || c == '-'

/-- `\b([A-Z][A-Za-z0-9&-]+(?:\s+[A-Z][A-Za-z0-9&-]+)*)\b` -/
def brandSymbolsRE : RE :=
  rcat [.wb,
        .grp 1 (rcat [.cls isAsciiUpper, rplus (.cls isSymbolChar),
                      rstar (rcat [rplus (.cls isPySpace), .cls isAsciiUpper,
                                   rplus (.cls isSymbolChar)])]),
        .wb]

/-- `(?i)(?:référence|reference|ref|réf|model|modèle)[\s:]*([A-Z0-9-]+)` -/
def refPrefixRE : RE :=
  rcat [ralt [rlitCI (str "référence"), rlitCI (str "reference"), rlitCI (str "ref"),
              rlitCI (str "réf"), rlitCI (str "model"), rlitCI (str "modèle")],
        rstar (.cls isSpaceColon),
        .grp 1 (rplus (.cls (fun c => isAsciiLetter c || isAsciiDigit c || c == '-')))]

/-- `[A-Z0-9-]` without IGNORECASE -/
def isUpperDigitDash (c : Char) : Bool :=
  isAsciiUpper c || isAsciiDigit c || c == '-'

/-- `\b([A-Z]{1,4}[0-9]{2,8}[A-Z0-9-]*)\b` -/
def refAlnumRE : RE :=
  rcat [.wb,
        .grp 1 (rcat [.rep (.cls isAsciiUpper) 1 (some 4),
                      .rep (.cls isAsciiDigit) 2 (some 8),
                      rstar (.cls isUpperDigitDash)]),
        .wb]

/-- `\b([0-9]{4,12})\b` -/
def refNumericRE : RE :=
  rcat [.wb, .grp 1 (.rep (.cls isAsciiDigit) 4 (some 12)), .wb]

/-- `\b([A-Z0-9]{6,15})\b` -/
def refMixedRE : RE :=
  rcat [.wb,
        .grp 1 (.rep (.cls (fun c => isAsciiUpper c || isAsciiDigit c)) 6 (some 15)),
        .wb]

/-- `[0-9]+(?:[.,][0-9]+)?` — a numeric value with optional decimal part. -/
def numBodyRE : RE :=
  rcat [rplus (.cls isAsciiDigit),
        ropt (rcat [.cls (fun c => c == '.' || c == ','), rplus (.cls isAsciiDigit)])]

/-- `[A-Za-z\s]` -/
def isLetterSpace (c : Char) : Bool := isAsciiLetter c || isPySpace c

/-- `(?i)((?:longueur|largeur|hauteur|diameter|diamètre|taille|size))`
    `[\s:]*([0-9]+(?:[.,][0-9]+)?)\s*([a-z]{1,3})` -/
def dimensionRE : RE :=
  rcat [.grp 1 (ralt [rlitCI (str "longueur"), rlitCI (str "largeur"), rlitCI (str "hauteur"),
                      rlitCI (str "diameter"), rlitCI (str "diamètre"), rlitCI (str "taille"),
                      rlitCI (str "size")]),
        rstar (.cls isSpaceColon), .grp 2 numBodyRE, rstar (.cls isPySpace),
        .grp 3 (.rep (.cls isAsciiLetter) 1 (some 3))]

/-- `(?i)((?:poids|weight|masse))[\s:]*([0-9]+(?:[.,][0-9]+)?)\s*(kg|g|lb)` -/
def weightRE : RE :=
  rcat [.grp 1 (ralt [rlitCI (str "poids"), rlitCI (str "weight"), rlitCI (str "masse")]),
        rstar (.cls isSpaceColon), .grp 2 numBodyRE, rstar (.cls isPySpace),
        .grp 3 (ralt [rlitCI (str "kg"), rlitCI (str "g"), rlitCI (str "lb")])]

/-- `(?i)((?:matériau|material|matière))[\s:]*([A-Za-z\s]+)` — two groups only. -/
def materialRE : RE :=
  rcat [.grp 1 (ralt [rlitCI (str "matériau"), rlitCI (str "material"), rlitCI (str "matière")]),
        rstar (.cls isSpaceColon), .grp 2 (rplus (.cls isLetterSpace))]

/-- `(?i)((?:couleur|color|coloration))[\s:]*([A-Za-z\s]+)` — two groups only. -/
def colorRE : RE :=
  rcat [.grp 1 (ralt [rlitCI (str "couleur"), rlitCI (str "color"), rlitCI (str "coloration")]),
        rstar (.cls isSpaceColon), .grp 2 (rplus (.cls isLetterSpace))]

/-- `(?i)((?:tension|voltage|volt))[\s:]*([0-9]+(?:[.,][0-9]+)?)\s*([vV])` -/
def voltageRE : RE :=
  rcat [.grp 1 (ralt [rlitCI (str "tension"), rlitCI (str "voltage"), rlitCI (str "volt")]),
        rstar (.cls isSpaceColon), .grp 2 numBodyRE, rstar (.cls isPySpace),
        .grp 3 (.cls (fun c => c == 'v' || c == 'V'))]

/-- `(?i)((?:puissance|power|watt))[\s:]*([0-9]+(?:[.,][0-9]+)?)\s*([wW])` -/
def powerRE : RE :=
  rcat [.grp 1 (ralt [rlitCI (str "puissance"), rlitCI (str "power"), rlitCI (str "watt")]),
        rstar (.cls isSpaceColon), .grp 2 numBodyRE, rstar (.cls isPySpace),
        .grp 3 (.cls (fun c => c == 'w' || c == 'W'))]

/-- `(?i)([A-Za-z\s]+)[\s:]*([0-9]+(?:[.,][0-9]+)?)\s*([A-Za-z]+)` -/
def genericNumRE : RE :=
  rcat [.grp 1 (rplus (.cls isLetterSpace)),
        rstar (.cls isSpaceColon), .grp 2 numBodyRE, rstar (.cls isPySpace),
        .grp 3 (rplus (.cls isAsciiLetter))]

/-- `\n\s*\d+[\.\)]\s+` (split pattern, IGNORECASE) -/
def splitNumberedRE : RE :=
  rcat [.cls (fun c => c == '\n'), rstar (.cls isPySpace), rplus (.cls isAsciiDigit),
        .cls (fun c => c == '.' || c == ')'), rplus (.cls isPySpace)]

/-- `\n\s*[A-Z][A-Z\s]{10,}\n` (split pattern; IGNORECASE makes `[A-Z]`
match either case) -/
def splitTitleRE : RE :=
  rcat [.cls (fun c => c == '\n'), rstar (.cls isPySpace), .cls isAsciiLetter,
        .rep (.cls isLetterSpace) 10 none, .cls (fun c => c == '\n')]

/-- `\n\s*[-=]{3,}\s*\n` (split pattern) -/
def splitRuleRE : RE :=
  rcat [.cls (fun c => c == '\n'), rstar (.cls isPySpace),
        .rep (.cls (fun c => c == '-' || c == '=')) 3 none,
        rstar (.cls isPySpace), .cls (fun c => c == '\n')]

/-- `\n\s*PRODUIT\s*\d*\s*[:\.]\s*` (split pattern, IGNORECASE) -/
def splitProductRE : RE :=
  rcat [.cls (fun c => c == '\n'), rstar (.cls isPySpace), rlitCI (str "produit"),
        rstar (.cls isPySpace), rstar (.cls isAsciiDigit), rstar (.cls isPySpace),
        .cls (fun c => c == ':' || c == '.'), rstar (.cls isPySpace)]

/-! ### Data model (`app/models/schemas.py`)

Confidence floats are modelled over `ℚ`; the `created_at`/`updated_at`
timestamps (wall-clock values with no logical content) are omitted. -/

structure ProductBrand where
  name : Str
  normalized_name : Str
  aliases : List Str
  confidence : ℚ
deriving DecidableEq

structure ProductReference where
  reference : Str
  normalized_reference : Str
  format_pattern : Option String
  confidence : ℚ
deriving DecidableEq

structure ProductCharacteristic where
  name : Str
  value : Str
  unit : Option Str
  category : Option Str
  normalized_name : Str
  normalized_value : Str
deriving DecidableEq

structure Product where
  id : Option Str
  name : Str
  brand : ProductBrand
  reference : ProductReference
  characteristics : List ProductCharacteristic
  description : Option Str := none
  category : Option Str := none
  price : Option ℚ := none
  currency : Option Str := some (str "EUR")
  availability : Option Bool := none
  source_document : Option Str
  extraction_confidence : ℚ
deriving DecidableEq

instance : Inhabited Product where
  default :=
    { id := none, name := [], brand := ⟨[], [], [], 0⟩,
      reference := ⟨[], [], none, 0⟩, characteristics := [],
      source_document := none, extraction_confidence := 0 }

/-- `ExtractionPattern` dataclass. -/
structure ExtractionPattern where
  name : String
  pattern : RE
  confidence_modifier : ℚ

/-- `_load_brand_patterns` -/
def brand_patterns : List ExtractionPattern :=
  [⟨"brand_prefix", brandPrefixRE, 0.9⟩,
   ⟨"brand_caps", brandCapsRE, 0.7⟩,
   ⟨"brand_mixed", brandMixedRE, 0.6⟩,
   ⟨"brand_with_symbols", brandSymbolsRE, 0.5⟩]

/-- `_load_reference_patterns` -/
def reference_patterns : List ExtractionPattern :=
  [⟨"ref_prefix", refPrefixRE, 0.95⟩,
   ⟨"ref_alphanumeric", refAlnumRE, 0.8⟩,
   ⟨"ref_numeric", refNumericRE, 0.6⟩,
   ⟨"ref_mixed", refMixedRE, 0.7⟩]

/-- `_load_characteristic_patterns` -/
def characteristic_patterns : List ExtractionPattern :=
  [⟨"dimension", dimensionRE, 0.9⟩,
   ⟨"weight", weightRE, 0.9⟩,
   ⟨"material", materialRE, 0.8⟩,
   ⟨"color", colorRE, 0.8⟩,
   ⟨"voltage", voltageRE, 0.9⟩,
   ⟨"power", powerRE, 0.9⟩,
   ⟨"generic_numeric", genericNumRE, 0.6⟩]

/-! ### Validation and normalisation (`product_extractor.py`) -/

/-- Python `str.isdigit` (ASCII fragment). -/
def pyIsDigit (s : Str) : Bool := !s.isEmpty && s.all isAsciiDigit

/-- `_is_valid_brand`: 2–50 chars, not `isdigit`, and not matching
`^[^A-Za-z]*$` (i.e. at least one ASCII letter). -/
def is_valid_brand (brand : Str) : Bool :=
  decide (2 ≤ brand.length) && decide (brand.length ≤ 50) &&
  !pyIsDigit brand && !brand.all (fun c => !isAsciiLetter c)

/-- `_is_valid_reference`: 3–20 chars and `re.search(r'[A-Za-z0-9]', ·)`. -/
def is_valid_reference (reference : Str) : Bool :=
  decide (3 ≤ reference.length) && decide (reference.length ≤ 20) &&
  reference.any (fun c => isAsciiLetter c || isAsciiDigit c)

/-- `_is_valid_characteristic` -/
def is_valid_characteristic (name value : Str) : Bool :=
  decide (2 ≤ name.length) && decide (name.length ≤ 50) &&
  decide (1 ≤ value.length) && decide (value.length ≤ 100)

/-- Helper for `re.sub(r'\s+', ' ', ·)`: collapse each whitespace run to one
space.  The flag records whether the previous character was whitespace. -/
def collapseSpacesAux : Str → Bool → Str
  | [], _ => []
  | c :: rest, inRun =>
    if isPySpace c then
      if inRun then collapseSpacesAux rest true
      else ' ' :: collapseSpacesAux rest true
    else c :: collapseSpacesAux rest false

def collapseSpaces (s : Str) : Str := collapseSpacesAux s false

/-- `_normalize_brand_name`: `re.sub(r'\s+', ' ', brand.upper().strip())`. -/
def normalize_brand_name (brand : Str) : Str :=
  collapseSpaces (pyStrip (pyUpper brand))

/-- `_normalize_reference`: `re.sub(r'[^A-Z0-9]', '', reference.upper())`. -/
def normalize_reference (reference : Str) : Str :=
  (pyUpper reference).filter (fun c => isAsciiUpper c || isAsciiDigit c)

/-- `_normalize_characteristic_name`: `re.sub(r'\s+', ' ', name.lower().strip())`. -/
def normalize_characteristic_name (name : Str) : Str :=
  collapseSpaces (pyStrip (pyLower name))

/-- `_normalize_characteristic_value`: commas become periods, strip, and the
lower-cased unit is appended after a space when present. -/
def normalize_characteristic_value (value : Str) (unit : Option Str) : Str :=
  let normalized := pyStrip (value.map (fun c => if c == ',' then '.' else c))
  match unit with
  | some u => normalized ++ [' '] ++ pyLower u
  | none => normalized

/-- Does `pat` occur (case-sensitively) at the head of `s`? -/
def isPrefixHere : Str → Str → Bool
  | [], _ => true
  | _ :: _, [] => false
  | p :: ps, c :: cs => p == c && isPrefixHere ps cs

/-- Python substring containment `needle in hay`. -/
def containsSub (needle : Str) : Str → Bool
  | [] => needle.isEmpty
  | c :: cs => isPrefixHere needle (c :: cs) || containsSub needle cs

/-- `_categorize_characteristic`: keyword containment on the lower-cased
name, first hit in the if/elif chain wins. -/
def categorize_characteristic (name : Str) : Str :=
  let name_lower := pyLower name
  if [str "longueur", str "largeur", str "hauteur", str "dimension", str "taille"].any
       (fun w => containsSub w name_lower) then str "dimension"
  else if [str "poids", str "masse", str "weight"].any
       (fun w => containsSub w name_lower) then str "poids"
  else if [str "matériau", str "material", str "matière"].any
       (fun w => containsSub w name_lower) then str "materiau"
  else if [str "couleur", str "color"].any
       (fun w => containsSub w name_lower) then str "couleur"
  else if [str "tension", str "voltage", str "volt"].any
       (fun w => containsSub w name_lower) then str "electrique"
  else if [str "puissance", str "power", str "watt"].any
       (fun w => containsSub w name_lower) then str "puissance"
  else str "autre"

/-! ### Confidence heuristics -/

/-- `_calculate_brand_confidence`, statement by statement:
base `0.5`, plus `min(occurrences * 0.1, 0.3)` where `occurrences` counts the
case-insensitive occurrences of the brand in the text, plus `0.1` if the
brand `isupper()`, finally capped at `1.0`. -/
def calculate_brand_confidence (brand text : Str) : ℚ :=
  let confidence : ℚ := 0.5
  let occurrences : ℚ := (countOccCI brand text : ℚ)
  let confidence := confidence + min (occurrences * 0.1) 0.3
  let confidence := if pyIsUpper brand then confidence + 0.1 else confidence
  min confidence 1

/-- `^[A-Z]{2,4}[0-9]{3,}` (used through `re.match`). -/
def refShapeRE : RE :=
  rcat [.rep (.cls isAsciiUpper) 2 (some 4), .rep (.cls isAsciiDigit) 3 none]

/-- `(?i)(?:ref|référence|model|modèle)[\s:]*` + `re.escape(reference)`. -/
def refKeywordSearchRE (reference : Str) : RE :=
  rcat [ralt [rlitCI (str "ref"), rlitCI (str "référence"), rlitCI (str "model"),
              rlitCI (str "modèle")],
        rstar (.cls isSpaceColon), rlitCI reference]

/-- `_calculate_reference_confidence` -/
def calculate_reference_confidence (reference text : Str) : ℚ :=
  let confidence : ℚ := 0.5
  let confidence := if reMatchB refShapeRE reference then confidence + 0.2 else confidence
  let confidence :=
    if reSearchB (refKeywordSearchRE reference) text then confidence + 0.3 else confidence
  min confidence 1

/-- `_calculate_extraction_confidence` -/
def calculate_extraction_confidence (brands : List ProductBrand)
    (references : List ProductReference)
    (characteristics : List ProductCharacteristic) : ℚ :=
  let brand_conf : ℚ := match brands with | [] => 0 | b :: _ => b.confidence
  let ref_conf : ℚ := match references with | [] => 0 | r :: _ => r.confidence
  let char_conf : ℚ := min ((characteristics.length : ℚ) / 5) 1
  brand_conf * 0.4 + ref_conf * 0.4 + char_conf * 0.2

/-! ### Candidate collection, deduplication, ranking -/

/-- The candidate-collection loop of `_extract_brands`: for each pattern, for
each match, validate the stripped group 1 and score it. -/
def brand_candidates (text : Str) : List ProductBrand :=
  brand_patterns.flatMap (fun pat =>
    (findCaps pat.pattern text).filterMap (fun caps =>
      match capGet caps 1 with
      | none => none
      | some g =>
        let brand_name := pyStrip g
        if is_valid_brand brand_name then
          some { name := brand_name,
                 normalized_name := normalize_brand_name brand_name,
                 aliases := [],
                 confidence :=
                   pat.confidence_modifier * calculate_brand_confidence brand_name text }
        else none))

/-- `_deduplicate_brands` with its `seen` set made explicit. -/
def dedupBrandsAux (seen : List Str) : List ProductBrand → List ProductBrand
  | [] => []
  | b :: bs =>
    if b.normalized_name ∈ seen then dedupBrandsAux seen bs
    else b :: dedupBrandsAux (b.normalized_name :: seen) bs

/-- `_deduplicate_brands`: keep the first occurrence of each normalized name. -/
def deduplicate_brands (brands : List ProductBrand) : List ProductBrand :=
  dedupBrandsAux [] brands

/-- `_extract_brands`: collect, deduplicate, sort by confidence descending
(stable), keep the top 3. -/
def extract_brands (text : Str) : List ProductBrand :=
  (sortDesc (fun b => b.confidence) (deduplicate_brands (brand_candidates text))).take 3

/-- The candidate-collection loop of `_extract_references`. -/
def reference_candidates (text : Str) : List ProductReference :=
  reference_patterns.flatMap (fun pat =>
    (findCaps pat.pattern text).filterMap (fun caps =>
      match capGet caps 1 with
      | none => none
      | some g =>
        let ref_value := pyStrip g
        if is_valid_reference ref_value then
          some { reference := ref_value,
                 normalized_reference := normalize_reference ref_value,
                 format_pattern := some pat.name,
                 confidence :=
                   pat.confidence_modifier * calculate_reference_confidence ref_value text }
        else none))

/-- `_deduplicate_references` with its `seen` set made explicit. -/
def dedupRefsAux (seen : List Str) : List ProductReference → List ProductReference
  | [] => []
  | r :: rs =>
    if r.normalized_reference ∈ seen then dedupRefsAux seen rs
    else r :: dedupRefsAux (r.normalized_reference :: seen) rs

/-- `_deduplicate_references` -/
def deduplicate_references (references : List ProductReference) : List ProductReference :=
  dedupRefsAux [] references

/-- `_extract_references` -/
def extract_references (text : Str) : List ProductReference :=
  (sortDesc (fun r => r.confidence)
    (deduplicate_references (reference_candidates text))).take 3

/-- The candidate-collection loop of `_extract_characteristics`.  Groups 1
and 2 are present in every characteristic pattern; group 3 (the unit) is
absent for the two-group patterns (`material`, `color`). -/
def characteristic_candidates (text : Str) : List ProductCharacteristic :=
  characteristic_patterns.flatMap (fun pat =>
    (findCaps pat.pattern text).filterMap (fun caps =>
      match capGet caps 1, capGet caps 2 with
      | some g1, some g2 =>
        let char_name := pyStrip g1
        let char_value := pyStrip g2
        let char_unit := (capGet caps 3).map pyStrip
        if is_valid_characteristic char_name char_value then
          some { name := char_name, value := char_value, unit := char_unit,
                 category := some (categorize_characteristic char_name),
                 normalized_name := normalize_characteristic_name char_name,
                 normalized_value := normalize_characteristic_value char_value char_unit }
        else none
      | _, _ => none))

/-- `_deduplicate_characteristics` with its `seen` set made explicit. -/
def dedupCharsAux (seen : List (Str × Str)) :
    List ProductCharacteristic → List ProductCharacteristic
  | [] => []
  | c :: cs =>
    if (c.normalized_name, c.normalized_value) ∈ seen then dedupCharsAux seen cs
    else c :: dedupCharsAux ((c.normalized_name, c.normalized_value) :: seen) cs

/-- `_deduplicate_characteristics` -/
def deduplicate_characteristics (characteristics : List ProductCharacteristic) :
    List ProductCharacteristic :=
  dedupCharsAux [] characteristics

/-- `_extract_characteristics` -/
def extract_characteristics (text : Str) : List ProductCharacteristic :=
  deduplicate_characteristics (characteristic_candidates text)

/-! ### Product name -/

/-- `^\d+[\.\)]` (metadata-line test, via `re.match`). -/
def productNameEnumRE : RE :=
  rcat [rplus (.cls isAsciiDigit), .cls (fun c => c == '.' || c == ')')]

/-- `^[A-Z\s]+$` (all-caps-line test, via `re.match`; no IGNORECASE here). -/
def productNameCapsRE : RE :=
  rcat [rplus (.cls (fun c => isAsciiUpper c || isPySpace c)), .eos]

/-- First loop of `_extract_product_name`: the first stripped line of length
in (10,100) that is neither a digit-enumerator nor all-caps. -/
def namePass1 : List Str → Option Str
  | [] => none
  | ln :: rest =>
    let line := pyStrip ln
    if 10 < line.length ∧ line.length < 100 ∧
       reMatchB productNameEnumRE line = false ∧ reMatchB productNameCapsRE line = false
    then some line
    else namePass1 rest

/-- Second loop of `_extract_product_name`: the first non-empty stripped
line, truncated to 80 characters. -/
def namePass2 : List Str → Option Str
  | [] => none
  | ln :: rest =>
    let line := pyStrip ln
    if line ≠ [] then some (line.take 80) else namePass2 rest

/-- `_extract_product_name` -/
def extract_product_name (text : Str) : Str :=
  match namePass1 (splitOnNL text) with
  | some line => line
  | none =>
    match namePass2 (splitOnNL text) with
    | some line => line
    | none => str "Produit extrait"

/-! ### Section splitting -/

/-- The four split patterns of `_split_into_product_sections`, in order. -/
def split_patterns_list : List RE :=
  [splitNumberedRE, splitTitleRE, splitRuleRE, splitProductRE]

/-- The cascade: each split pattern is applied to every section produced so
far; parts are stripped and empty parts are discarded. -/
def sections_cascade (text : Str) : List Str :=
  split_patterns_list.foldl
    (fun sections pat =>
      sections.flatMap (fun sec =>
        ((reSplit pat sec).map pyStrip).filter (fun part => !part.isEmpty)))
    [text]

/-- The size filter `50 <= len(section) <= 2000`. -/
def sectionInRange (sec : Str) : Bool :=
  decide (50 ≤ sec.length) && decide (sec.length ≤ 2000)

/-- `_split_into_product_sections`: cascade, size filter, and the fallback to
`[text]` when the filter leaves nothing. -/
def split_into_product_sections (text : Str) : List Str :=
  let sections := sections_cascade text
  let filtered_sections := sections.filter sectionInRange
  if filtered_sections.isEmpty then [text] else filtered_sections

/-! ### Product assembly -/

/-- `_extract_single_product`.  `genId` stands for `_generate_product_id`
(an `md5` of source name, section index and current timestamp — an external
hash + clock collaborator, passed in explicitly). -/
def extract_single_product (genId : Str → Nat → Str) (text source_path : Str)
    (section_idx : Nat) : Option Product :=
  let brands := extract_brands text
  match brands with
  | [] => none
  | brand :: _ =>
    let references := extract_references text
    match references with
    | [] => none
    | reference :: _ =>
      let characteristics := extract_characteristics text
      let product_name := extract_product_name text
      let confidence := calculate_extraction_confidence brands references characteristics
      some { id := some (genId source_path section_idx),
             name := product_name,
             brand := brand,
             reference := reference,
             characteristics := characteristics,
             source_document := some source_path,
             extraction_confidence := confidence }

/-- `_extract_products_from_text` in the exception-free case: every section
is fed to `_extract_single_product` and the `Some` results are collected. -/
def extract_products_from_text (genId : Str → Nat → Str) (text source_path : Str) :
    List Product :=
  ((split_into_product_sections text).enum).filterMap
    (fun p => extract_single_product genId p.2 source_path p.1)

/-- `extract_from_text`, the public text entry point. -/
def extract_from_text (genId : Str → Nat → Str) (text source_path : Str) : List Product :=
  extract_products_from_text genId text source_path

/-- The section loop of `_extract_products_from_text` with the per-section
extraction as an explicit fallible step: `.error` models an exception raised
while extracting a section, which the source catches, logs and skips before
continuing with the remaining sections. -/
def extract_sections_loop {ε : Type} (f : Nat → Str → Except ε (Option Product)) :
    Nat → List Str → List Product
  | _, [] => []
  | idx, sec :: rest =>
    match f idx sec with
    | .ok (some p) => p :: extract_sections_loop f (idx + 1) rest
    | .ok none => extract_sections_loop f (idx + 1) rest
    | .error _ => extract_sections_loop f (idx + 1) rest

/-! ### Hybrid retriever (`app/vectorstore/hybrid_retriever.py`) -/

/-- `MatchingStage` (schemas.py). -/
inductive MatchingStage where
  | brand_matching
  | reference_matching
  | characteristic_matching
deriving DecidableEq

/-- The per-document metadata dict: the fields written by `add_products` and
read back by `_reconstruct_product_from_metadata` (`created_at` is omitted
with the other timestamps).  `Option` models `dict.get` absence. -/
structure ChromaMetadata where
  product_id : Option Str := none
  product_name : Option Str := none
  brand_name : Option Str := none
  brand_normalized : Option Str := none
  reference : Option Str := none
  reference_normalized : Option Str := none
  source_document : Option Str := none
  extraction_confidence : Option ℚ := none
  category : Option Str := none
  price : Option ℚ := none
  currency : Option Str := none
  characteristics_count : Option Nat := none
deriving DecidableEq

/-- `_reconstruct_product_from_metadata` (the `document` argument is unused
by the source as well). -/
def reconstruct_product_from_metadata (metadata : ChromaMetadata) (_document : Str) :
    Product :=
  let brand : ProductBrand :=
    { name := metadata.brand_name.getD [],
      normalized_name := metadata.brand_normalized.getD [],
      aliases := [], confidence := 1 }
  let reference : ProductReference :=
    { reference := metadata.reference.getD [],
      normalized_reference := metadata.reference_normalized.getD [],
      format_pattern := none, confidence := 1 }
  { id := metadata.product_id,
    name := metadata.product_name.getD [],
    brand := brand,
    reference := reference,
    characteristics := [],
    category := metadata.category,
    price := metadata.price,
    currency := some (metadata.currency.getD (str "EUR")),
    source_document := metadata.source_document,
    extraction_confidence := metadata.extraction_confidence.getD 1 }

/-- The slice of a ChromaDB `query` response read by the source
(`results['ids'][0]`, etc.); `none` models an absent or falsy entry. -/
structure ChromaResult where
  ids : List Str
  distances : Option (List ℚ)
  metadatas : Option (List ChromaMetadata)
  documents : Option (List Str)

/-- `similarity = 1.0 - distances[i] if distances else 0.5` -/
def rowSimilarity (distances : List ℚ) (i : Nat) : ℚ :=
  if !distances.isEmpty then 1 - distances.getD i 0 else 0.5

/-- The row loop of `_process_chroma_results`: a row is kept iff its
similarity reaches the threshold. -/
def processRows (distances : List ℚ) (metadatas : List ChromaMetadata)
    (documents : List Str) (similarity_threshold : ℚ) :
    Nat → List Str → List (Product × ℚ)
  | _, [] => []
  | i, _ :: rest =>
    if similarity_threshold ≤ rowSimilarity distances i then
      (reconstruct_product_from_metadata (metadatas.getD i {}) (documents.getD i []),
        rowSimilarity distances i) ::
        processRows distances metadatas documents similarity_threshold (i + 1) rest
    else processRows distances metadatas documents similarity_threshold (i + 1) rest

/-- `_process_chroma_results` -/
def process_chroma_results (results : ChromaResult) (similarity_threshold : ℚ) :
    List (Product × ℚ) :=
  match results.ids with
  | [] => []
  | ids =>
    let distances := results.distances.getD (List.replicate ids.length 0)
    let metadatas := results.metadatas.getD (List.replicate ids.length {})
    let documents := results.documents.getD (List.replicate ids.length [])
    processRows distances metadatas documents similarity_threshold 0 ids

/-- The caller-supplied filter dict (see `_apply_filters` and the
where-clause construction). -/
structure Filters where
  brand_name : Option Str := none
  category : Option Str := none
  min_price : Option ℚ := none
  max_price : Option ℚ := none
deriving DecidableEq

/-- The three shapes of `where` clause the source passes to
`collection.query` (brand stage, reference stage, and the plain
`filters or {}` of semantic search). -/
inductive WhereClause where
  | brandW (query : Str) (queryUpper : Str) (extra : Option Filters)
  | refW (query : Str) (normalized_query : Str) (extra : Option Filters)
  | plainW (filters : Option Filters)

/-- The external ChromaDB `collection.query` call (`query_texts=[query]`,
`n_results`, `where`).  Its response is the collaborator's choice, so the
search theorems quantify over this function. -/
abbrev ChromaQueryFn := Str → Nat → WhereClause → ChromaResult

/-- `_search_by_brand` -/
def search_by_brand (collQuery : ChromaQueryFn) (query : Str) (max_results : Nat)
    (similarity_threshold : ℚ) (filters : Option Filters) : List (Product × ℚ) :=
  process_chroma_results
    (collQuery query max_results (.brandW query (pyUpper query) filters))
    similarity_threshold

/-- `_search_by_reference`: the query is normalised by upper-casing and
removing `-` and spaces. -/
def search_by_reference (collQuery : ChromaQueryFn) (query : Str) (max_results : Nat)
    (similarity_threshold : ℚ) (filters : Option Filters) : List (Product × ℚ) :=
  let normalized_query := (pyUpper query).filter (fun c => !(c == '-') && !(c == ' '))
  process_chroma_results
    (collQuery query max_results (.refW query normalized_query filters))
    similarity_threshold

/-- `_semantic_search` -/
def semantic_search (collQuery : ChromaQueryFn) (query : Str) (max_results : Nat)
    (similarity_threshold : ℚ) (filters : Option Filters) : List (Product × ℚ) :=
  process_chroma_results (collQuery query max_results (.plainW filters)) similarity_threshold

/-- `_search_by_characteristics`: pure semantic search with the hard-coded
`0.8` threshold ("80% comme demandé"); the caller's threshold parameter is
received but not used. -/
def search_by_characteristics (collQuery : ChromaQueryFn) (query : Str) (max_results : Nat)
    (_similarity_threshold : ℚ) (filters : Option Filters) : List (Product × ℚ) :=
  semantic_search collQuery query max_results 0.8 filters

/-- `search_products` over the three `MatchingStage` enum members (the `else`
hybrid branch of the dispatch is unreachable through the enum; its fusion
core is `combine_search_results`/`hybrid_fuse` below). -/
def search_products (collQuery : ChromaQueryFn) (query : Str) (stage : MatchingStage)
    (max_results : Nat) (similarity_threshold : ℚ) (filters : Option Filters) :
    List (Product × ℚ) :=
  match stage with
  | .brand_matching =>
    search_by_brand collQuery query max_results similarity_threshold filters
  | .reference_matching =>
    search_by_reference collQuery query max_results similarity_threshold filters
  | .characteristic_matching =>
    search_by_characteristics collQuery query max_results similarity_threshold filters

/-- Python dict assignment on an insertion-ordered association list: replace
in place when the key exists, append otherwise. -/
def dictSet {V : Type} (k : Option Str) (v : V) :
    List (Option Str × V) → List (Option Str × V)
  | [] => [(k, v)]
  | (k2, v2) :: rest => if k2 = k then (k, v) :: rest else (k2, v2) :: dictSet k v rest

/-- Dict lookup on the association list. -/
def alookup {V : Type} (k : Option Str) : List (Option Str × V) → Option V
  | [] => none
  | (k2, v2) :: rest => if k2 = k then some v2 else alookup k rest

/-- The first loop of `_combine_search_results`: each semantic result is
stored under its product id with weight applied. -/
def combineSemPhase (semantic_weight : ℚ) (semantic_results : List (Product × ℚ))
    (d : List (Option Str × (Product × ℚ))) : List (Option Str × (Product × ℚ)) :=
  semantic_results.foldl
    (fun d r => dictSet r.1.id (r.1, r.2 * semantic_weight) d) d

/-- The second loop of `_combine_search_results`: a BM25 result whose id is
already present adds its weighted score to the existing entry (keeping the
existing `Product` object); otherwise it is stored with weight applied. -/
def combineBmPhase (bm25_weight : ℚ) (bm25_results : List (Product × ℚ))
    (d : List (Option Str × (Product × ℚ))) : List (Option Str × (Product × ℚ)) :=
  bm25_results.foldl
    (fun d r =>
      match alookup r.1.id d with
      | some ev => dictSet r.1.id (ev.1, ev.2 + r.2 * bm25_weight) d
      | none => dictSet r.1.id (r.1, r.2 * bm25_weight) d)
    d

/-- `_combine_search_results`: semantic scores weighted `0.7` and BM25 scores
`0.3`, merged by `product.id` in an insertion-ordered dict, then the dict
values sorted by combined score descending. -/
def combine_search_results (semantic_results bm25_results : List (Product × ℚ)) :
    List (Product × ℚ) :=
  let combined := combineSemPhase 0.7 semantic_results []
  let combined := combineBmPhase 0.3 bm25_results combined
  sortDesc (fun x => x.2) (combined.map (fun e => e.2))

/-- The fusion and truncation step of `_hybrid_search`: the semantic and
BM25 sub-search results enter as inputs, are fused by
`_combine_search_results`, and the output is cut to `max_results`. -/
def hybrid_fuse (semantic_results bm25_results : List (Product × ℚ))
    (max_results : Nat) : List (Product × ℚ) :=
  (combine_search_results semantic_results bm25_results).take max_results

/-! ### Add / stats state (`add_products`, `_update_bm25_index`, `get_stats`) -/

/-- `' | '.join` -/
def joinSep (sep : Str) : List Str → Str
  | [] => []
  | [x] => x
  | x :: rest => x ++ sep ++ joinSep sep rest

/-- Python `str.split()` without arguments: whitespace-run splitting with no
empty parts; the accumulator holds the current word reversed. -/
def pyWordsAux : Str → Str → List Str
  | [], acc => if acc.isEmpty then [] else [acc.reverse]
  | c :: rest, acc =>
    if isPySpace c then
      if acc.isEmpty then pyWordsAux rest []
      else acc.reverse :: pyWordsAux rest []
    else pyWordsAux rest (c :: acc)

def pyWords (s : Str) : List Str := pyWordsAux s []

/-- `_create_searchable_text`: name, brand name, reference, optional
description and category, and each characteristic as `name: value unit`,
joined by `' | '` with falsy (empty) parts dropped. -/
def create_searchable_text (product : Product) : Str :=
  let parts := [product.name, product.brand.name, product.reference.reference]
  let parts :=
    match product.description with
    | some d => if d.isEmpty then parts else parts ++ [d]
    | none => parts
  let parts :=
    match product.category with
    | some c => if c.isEmpty then parts else parts ++ [c]
    | none => parts
  let charParts := product.characteristics.map (fun char =>
    let char_text := char.name ++ str ": " ++ char.value
    match char.unit with
    | some u => if u.isEmpty then char_text else char_text ++ [' '] ++ u
    | none => char_text)
  joinSep (str " | ") ((parts ++ charParts).filter (fun p => !p.isEmpty))

/-- The metadata dict built by `add_products` for one product (`or`
defaults follow Python truthiness; `created_at` omitted). -/
def product_metadata (product : Product) : ChromaMetadata :=
  { product_id := product.id,
    product_name := some product.name,
    brand_name := some product.brand.name,
    brand_normalized := some product.brand.normalized_name,
    reference := some product.reference.reference,
    reference_normalized := some product.reference.normalized_reference,
    source_document := some (product.source_document.getD []),
    extraction_confidence := some product.extraction_confidence,
    category := some (match product.category with
      | some c => if c.isEmpty then str "unknown" else c
      | none => str "unknown"),
    price := some (product.price.getD 0),
    currency := some (match product.currency with
      | some c => if c.isEmpty then str "EUR" else c
      | none => str "EUR"),
    characteristics_count := some product.characteristics.length }

/-- The `HybridRetriever` state touched by `add_products`,
`_update_bm25_index` and `get_stats`: the collection rows
`(id, metadata, document)`, the BM25 index (modelled by its tokenised
corpus; `none` before the first build), and the cached document/product
snapshots. -/
structure RetrieverState where
  collection : List (Str × ChromaMetadata × Str)
  bm25_index : Option (List (List Str))
  documents : List Str
  products : List Product
deriving DecidableEq

/-- `_update_bm25_index`: rebuild the lexical index over the whole
collection; nothing changes when the collection has no documents. -/
def update_bm25_index (st : RetrieverState) : RetrieverState :=
  let all_docs := st.collection.map (fun e => e.2.2)
  if all_docs.isEmpty then st
  else
    { st with
      bm25_index := some (all_docs.map (fun doc => pyWords (pyLower doc))),
      documents := all_docs,
      products := st.collection.map (fun e => reconstruct_product_from_metadata e.2.1 e.2.2) }

/-- `add_products`: `if not products: return` short-circuits; otherwise the
documents, metadata and ids are appended to the collection and the BM25
index is rebuilt.  `uuidFn` models `uuid.uuid4()` for products without an
id. -/
def add_products (uuidFn : Nat → Str) (st : RetrieverState) (products : List Product) :
    RetrieverState :=
  if products.isEmpty then st
  else
    let entries := products.enum.map (fun pr =>
      let product := pr.2
      let doc_id :=
        match product.id with
        | some i => if i.isEmpty then uuidFn pr.1 else i
        | none => uuidFn pr.1
      (doc_id, product_metadata product, create_searchable_text product))
    update_bm25_index { st with collection := st.collection ++ entries }

/-- The value of `get_stats`. -/
structure RetrieverStats where
  total_documents : Nat
  collection_name : String
  embedding_model : String
  bm25_enabled : Bool
deriving DecidableEq

/-- `get_stats` (the name fields come from static settings). -/
def get_stats (st : RetrieverState) : RetrieverStats :=
  { total_documents := st.collection.length,
    collection_name := "rag_documents",
    embedding_model := "BAAI/bge-large-en-v1.5",
    bm25_enabled := st.bm25_index.isSome }

/-! ## Theorems -/

/-- C10: `add_products` with an empty product sequence is a complete no-op:
the state (collection, BM25 index, cached documents and products) is
unchanged, and so is every stats field, in particular `total_documents`. -/
theorem add_products_empty_noop (uuidFn : Nat → Str) (st : RetrieverState) :
    add_products uuidFn st [] = st ∧
    get_stats (add_products uuidFn st []) = get_stats st := by
  constructor <;> rfl

/-- Every row kept by the `_process_chroma_results` loop has similarity at or
above the threshold it was called with. -/
theorem processRows_threshold (distances : List ℚ) (metadatas : List ChromaMetadata)
    (documents : List Str) (th : ℚ) :
    ∀ (ids : List Str) (i : Nat) (r : Product × ℚ),
      r ∈ processRows distances metadatas documents th i ids → th ≤ r.2 := by
  intro ids
  induction ids with
  | nil =>
    intro i r hr
    simp [processRows] at hr
  | cons x rest ih =>
    intro i r hr
    rw [processRows] at hr
    split at hr
    · rcases List.mem_cons.mp hr with rfl | h2
      · assumption
      · exact ih (i + 1) r h2
    · exact ih (i + 1) r hr

/-- `_process_chroma_results` only returns rows at or above the threshold. -/
theorem process_chroma_results_threshold (results : ChromaResult) (th : ℚ) :
    ∀ r ∈ process_chroma_results results th, th ≤ r.2 := by
  intro r hr
  unfold process_chroma_results at hr
  cases hids : results.ids with
  | nil => rw [hids] at hr; simp at hr
  | cons x xs =>
    rw [hids] at hr
    exact processRows_threshold _ _ _ th _ _ r hr

/-- C2: a `characteristic_matching` search returns only results whose
semantic similarity is ≥ 0.8, for every response of the external collection,
every query, every `max_results`, every filter set and every caller-supplied
threshold — and the caller's threshold parameter is ignored for this stage. -/
theorem characteristic_stage_threshold (collQuery : ChromaQueryFn) (query : Str)
    (max_results : Nat) (thr thr2 : ℚ) (filters : Option Filters) :
    (∀ r ∈ search_products collQuery query .characteristic_matching max_results thr filters,
        (0.8 : ℚ) ≤ r.2) ∧
    search_products collQuery query .characteristic_matching max_results thr filters =
      search_products collQuery query .characteristic_matching max_results thr2 filters := by
  constructor
  · intro r hr
    exact process_chroma_results_threshold _ _ r hr
  · rfl

/-- C2 witness: a concrete collection response at distance 0.15 (similarity
0.85) with caller threshold 0. -/
theorem characteristic_stage_threshold_witness :
    (∀ r ∈ search_products
        (fun _ _ _ => ⟨[str "d1"], some [0.15], none, none⟩)
        (str "perceuse") .characteristic_matching 5 0 none, (0.8 : ℚ) ≤ r.2) ∧
    search_products (fun _ _ _ => ⟨[str "d1"], some [0.15], none, none⟩)
        (str "perceuse") .characteristic_matching 5 0 none =
      search_products (fun _ _ _ => ⟨[str "d1"], some [0.15], none, none⟩)
        (str "perceuse") .characteristic_matching 5 1 none :=
  characteristic_stage_threshold (fun _ _ _ => ⟨[str "d1"], some [0.15], none, none⟩)
    (str "perceuse") 5 0 1 none

/-- C4: the splitter never returns an empty list; when the size filter keeps
at least one section the result is exactly the in-range part of the cascade;
when it keeps nothing the result is the single original text; and membership
in the filtered list is exactly the length bound 50 ≤ len ≤ 2000 (so a
49-character section is dropped while 50 and 2000 are retained). -/
theorem splitter_sections (text : Str) :
    split_into_product_sections text ≠ [] ∧
    (∀ sec ∈ split_into_product_sections text,
        (50 ≤ sec.length ∧ sec.length ≤ 2000) ∨
          split_into_product_sections text = [text]) ∧
    ((sections_cascade text).filter sectionInRange ≠ [] →
        split_into_product_sections text = (sections_cascade text).filter sectionInRange) ∧
    ((sections_cascade text).filter sectionInRange = [] →
        split_into_product_sections text = [text]) ∧
    (∀ sec ∈ sections_cascade text,
        sec ∈ (sections_cascade text).filter sectionInRange ↔
          (50 ≤ sec.length ∧ sec.length ≤ 2000)) := by
  have hrange : ∀ sec : Str, sectionInRange sec = true ↔ (50 ≤ sec.length ∧ sec.length ≤ 2000) := by
    intro sec
    simp [sectionInRange]
  refine ⟨?_, ?_, ?_, ?_, ?_⟩
  · unfold split_into_product_sections
    by_cases h : ((sections_cascade text).filter sectionInRange).isEmpty
    · rw [if_pos h]; simp
    · rw [if_neg h]
      intro hc
      rw [hc] at h
      simp at h
  · intro sec hsec
    unfold split_into_product_sections at hsec ⊢
    by_cases h : ((sections_cascade text).filter sectionInRange).isEmpty
    · rw [if_pos h] at hsec ⊢
      right; rfl
    · rw [if_neg h] at hsec ⊢
      left
      exact (hrange sec).mp (List.of_mem_filter hsec)
  · intro h
    unfold split_into_product_sections
    rw [if_neg (by simpa [List.isEmpty_iff] using h)]
  · intro h
    unfold split_into_product_sections
    rw [if_pos (by simpa [List.isEmpty_iff] using h)]
  · intro sec hsec
    constructor
    · intro hmem
      exact (hrange sec).mp (List.of_mem_filter hmem)
    · intro hlen
      exact List.mem_filter.mpr ⟨hsec, (hrange sec).mpr hlen⟩

/-- C4 witness: a short text (49 characters stay out of range, so the
fallback branch fires) instantiating every conjunct. -/
theorem splitter_sections_witness :
    split_into_product_sections (str "abc") ≠ [] ∧
    (∀ sec ∈ split_into_product_sections (str "abc"),
        (50 ≤ sec.length ∧ sec.length ≤ 2000) ∨
          split_into_product_sections (str "abc") = [str "abc"]) ∧
    ((sections_cascade (str "abc")).filter sectionInRange ≠ [] →
        split_into_product_sections (str "abc") =
          (sections_cascade (str "abc")).filter sectionInRange) ∧
    ((sections_cascade (str "abc")).filter sectionInRange = [] →
        split_into_product_sections (str "abc") = [str "abc"]) ∧
    (∀ sec ∈ sections_cascade (str "abc"),
        sec ∈ (sections_cascade (str "abc")).filter sectionInRange ↔
          (50 ≤ sec.length ∧ sec.length ≤ 2000)) :=
  splitter_sections (str "abc")

/-- The loop splits over list concatenation. -/
theorem extract_sections_loop_append {ε : Type}
    (f : Nat → Str → Except ε (Option Product)) :
    ∀ (l1 l2 : List Str) (idx : Nat),
      extract_sections_loop f idx (l1 ++ l2) =
        extract_sections_loop f idx l1 ++
          extract_sections_loop f (idx + l1.length) l2 := by
  intro l1
  induction l1 with
  | nil => intro l2 idx; simp [extract_sections_loop]
  | cons sec rest ih =>
    intro l2 idx
    have hlen : idx + (sec :: rest).length = idx + 1 + rest.length := by
      simp [List.length_cons]
      omega
    simp only [List.cons_append, extract_sections_loop, List.append_eq]
    cases f idx sec with
    | ok o =>
      cases o with
      | some p =>
        dsimp only
        rw [ih l2 (idx + 1), hlen]
        simp
      | none =>
        dsimp only
        rw [ih l2 (idx + 1), hlen]
    | error e =>
      dsimp only
      rw [ih l2 (idx + 1), hlen]

/-- The loop collects exactly the successful extractions, in order. -/
theorem extract_sections_loop_eq_filterMap {ε : Type}
    (f : Nat → Str → Except ε (Option Product)) :
    ∀ (sections : List Str) (idx : Nat),
      extract_sections_loop f idx sections =
        (sections.enumFrom idx).filterMap
          (fun js => match f js.1 js.2 with | .ok (some p) => some p | _ => none) := by
  intro sections
  induction sections with
  | nil => intro idx; simp [extract_sections_loop, List.enumFrom]
  | cons sec rest ih =>
    intro idx
    rw [extract_sections_loop, List.enumFrom, List.filterMap_cons]
    cases hf : f idx sec with
    | ok o =>
      cases o with
      | some p => simp only [hf, ih (idx + 1)]
      | none => simp only [hf, ih (idx + 1)]
    | error e => simp only [hf, ih (idx + 1)]

/-- C5: an exception in one section's extraction is caught and the section
skipped: the loop returns exactly the successful extractions of the
non-failing sections (first conjunct), a failing section splits the loop
without aborting the remaining sections (second conjunct), and with the pure
per-section extractor the loop is exactly the source's text pipeline (third
conjunct). -/
theorem section_failure_isolated {ε : Type} (f : Nat → Str → Except ε (Option Product))
    (idx : Nat) (sections : List Str) :
    (extract_sections_loop f idx sections =
      (sections.enumFrom idx).filterMap
        (fun js => match f js.1 js.2 with | .ok (some p) => some p | _ => none)) ∧
    (∀ (pre : List Str) (bad : Str) (post : List Str) (e : ε),
        f (idx + pre.length) bad = .error e →
        extract_sections_loop f idx (pre ++ bad :: post) =
          extract_sections_loop f idx pre ++
            extract_sections_loop f (idx + pre.length + 1) post) ∧
    (∀ (genId : Str → Nat → Str) (text source_path : Str),
        extract_from_text genId text source_path =
          extract_sections_loop
            (fun i sec => (.ok (extract_single_product genId sec source_path i) : Except ε _))
            0 (split_into_product_sections text)) := by
  refine ⟨extract_sections_loop_eq_filterMap f sections idx, ?_, ?_⟩
  · intro pre bad post e hf
    rw [extract_sections_loop_append f pre (bad :: post) idx]
    congr 1
    rw [extract_sections_loop, hf]
  · intro genId text source_path
    rw [extract_from_text, extract_products_from_text,
      extract_sections_loop_eq_filterMap]
    have harg : (fun js : Nat × Str =>
        match (.ok (extract_single_product genId js.2 source_path js.1) : Except ε _) with
        | .ok (some p) => some p | _ => none) =
        (fun js : Nat × Str => extract_single_product genId js.2 source_path js.1) := by
      funext js
      cases extract_single_product genId js.2 source_path js.1 <;> rfl
    rw [harg]
    rfl

/-! ### Confidence bounds and candidate structure -/

/-- `_calculate_brand_confidence` as a closed formula: base 0.5, plus 0.1 per
(case-insensitive) occurrence — including the first — capped at 0.3, plus 0.1
for a fully-uppercase candidate, capped at 1. -/
theorem brand_confidence_closed_form (brand text : Str) :
    calculate_brand_confidence brand text =
      min (0.5 + min ((countOccCI brand text : ℚ) * 0.1) 0.3 +
           (if pyIsUpper brand then (0.1 : ℚ) else 0)) 1 := by
  unfold calculate_brand_confidence
  split
  · rfl
  · norm_num

theorem calculate_brand_confidence_bounds (brand text : Str) :
    0 ≤ calculate_brand_confidence brand text ∧ calculate_brand_confidence brand text ≤ 1 := by
  rw [brand_confidence_closed_form]
  have hocc : (0 : ℚ) ≤ (countOccCI brand text : ℚ) * 0.1 := by positivity
  have hmin : (0 : ℚ) ≤ min ((countOccCI brand text : ℚ) * 0.1) 0.3 :=
    le_min hocc (by norm_num)
  refine ⟨le_min ?_ (by norm_num), min_le_right _ _⟩
  split <;> linarith

/-- `_calculate_reference_confidence` as a closed formula. -/
theorem reference_confidence_closed_form (reference text : Str) :
    calculate_reference_confidence reference text =
      min (0.5 + (if reMatchB refShapeRE reference then (0.2 : ℚ) else 0) +
           (if reSearchB (refKeywordSearchRE reference) text then (0.3 : ℚ) else 0)) 1 := by
  unfold calculate_reference_confidence
  split <;> split <;> norm_num

theorem calculate_reference_confidence_bounds (reference text : Str) :
    0 ≤ calculate_reference_confidence reference text ∧
      calculate_reference_confidence reference text ≤ 1 := by
  rw [reference_confidence_closed_form]
  refine ⟨le_min ?_ (by norm_num), min_le_right _ _⟩
  split <;> split <;> norm_num

/-- Structure of every brand candidate: it comes from one of the four
patterns, is validated, and its confidence is the pattern's modifier times
the content boost of its (stripped) name. -/
theorem brand_candidates_spec (t : Str) (b : ProductBrand) (hb : b ∈ brand_candidates t) :
    ∃ pat ∈ brand_patterns,
      b.confidence = pat.confidence_modifier * calculate_brand_confidence b.name t ∧
      is_valid_brand b.name = true ∧
      b.normalized_name = normalize_brand_name b.name := by
  unfold brand_candidates at hb
  rcases List.mem_flatMap.mp hb with ⟨pat, hpat, hmem⟩
  rcases List.mem_filterMap.mp hmem with ⟨caps, _, heq⟩
  refine ⟨pat, hpat, ?_⟩
  cases hg : capGet caps 1 with
  | none => rw [hg] at heq; cases heq
  | some g =>
    rw [hg] at heq
    dsimp only at heq
    by_cases hv : is_valid_brand (pyStrip g)
    · rw [if_pos hv] at heq
      cases heq
      exact ⟨rfl, hv, rfl⟩
    · rw [if_neg (by simpa using hv)] at heq
      cases heq

theorem brand_patterns_modifier_bounds :
    ∀ pat ∈ brand_patterns, 0 ≤ pat.confidence_modifier ∧ pat.confidence_modifier ≤ 1 := by
  intro pat hpat
  simp only [brand_patterns, List.mem_cons, List.not_mem_nil, or_false] at hpat
  rcases hpat with rfl | rfl | rfl | rfl <;> norm_num

theorem brand_candidates_confidence_range (t : Str) (b : ProductBrand)
    (hb : b ∈ brand_candidates t) : 0 ≤ b.confidence ∧ b.confidence ≤ 1 := by
  rcases brand_candidates_spec t b hb with ⟨pat, hpat, hconf, _, _⟩
  rcases brand_patterns_modifier_bounds pat hpat with ⟨hm0, hm1⟩
  rcases calculate_brand_confidence_bounds b.name t with ⟨hc0, hc1⟩
  rw [hconf]
  exact ⟨mul_nonneg hm0 hc0, mul_le_one₀ hm1 hc0 hc1⟩

/-- Reference-candidate structure (mirror of `brand_candidates_spec`). -/
theorem reference_candidates_spec (t : Str) (r : ProductReference)
    (hr : r ∈ reference_candidates t) :
    ∃ pat ∈ reference_patterns,
      r.confidence = pat.confidence_modifier * calculate_reference_confidence r.reference t ∧
      is_valid_reference r.reference = true ∧
      r.normalized_reference = normalize_reference r.reference := by
  unfold reference_candidates at hr
  rcases List.mem_flatMap.mp hr with ⟨pat, hpat, hmem⟩
  rcases List.mem_filterMap.mp hmem with ⟨caps, _, heq⟩
  refine ⟨pat, hpat, ?_⟩
  cases hg : capGet caps 1 with
  | none => rw [hg] at heq; cases heq
  | some g =>
    rw [hg] at heq
    dsimp only at heq
    by_cases hv : is_valid_reference (pyStrip g)
    · rw [if_pos hv] at heq
      cases heq
      exact ⟨rfl, hv, rfl⟩
    · rw [if_neg (by simpa using hv)] at heq
      cases heq

theorem reference_patterns_modifier_bounds :
    ∀ pat ∈ reference_patterns, 0 ≤ pat.confidence_modifier ∧ pat.confidence_modifier ≤ 1 := by
  intro pat hpat
  simp only [reference_patterns, List.mem_cons, List.not_mem_nil, or_false] at hpat
  rcases hpat with rfl | rfl | rfl | rfl <;> norm_num

theorem reference_candidates_confidence_range (t : Str) (r : ProductReference)
    (hr : r ∈ reference_candidates t) : 0 ≤ r.confidence ∧ r.confidence ≤ 1 := by
  rcases reference_candidates_spec t r hr with ⟨pat, hpat, hconf, _, _⟩
  rcases reference_patterns_modifier_bounds pat hpat with ⟨hm0, hm1⟩
  rcases calculate_reference_confidence_bounds r.reference t with ⟨hc0, hc1⟩
  rw [hconf]
  exact ⟨mul_nonneg hm0 hc0, mul_le_one₀ hm1 hc0 hc1⟩

theorem mem_dedupBrandsAux (b : ProductBrand) :
    ∀ (l : List ProductBrand) (seen : List Str), b ∈ dedupBrandsAux seen l → b ∈ l := by
  intro l
  induction l with
  | nil => intro seen h; simp [dedupBrandsAux] at h
  | cons x xs ih =>
    intro seen h
    rw [dedupBrandsAux] at h
    split at h
    · exact List.mem_cons_of_mem x (ih _ h)
    · rcases List.mem_cons.mp h with rfl | h2
      · exact List.mem_cons_self _ _
      · exact List.mem_cons_of_mem x (ih _ h2)

/-- Everything `_extract_brands` returns is one of the collected candidates. -/
theorem extract_brands_subset (t : Str) (b : ProductBrand) (hb : b ∈ extract_brands t) :
    b ∈ brand_candidates t := by
  unfold extract_brands at hb
  have h1 := List.take_subset 3 _ hb
  have h2 := (sortDesc_perm (fun x : ProductBrand => x.confidence) _).mem_iff.mp h1
  exact mem_dedupBrandsAux b _ [] h2

theorem mem_dedupRefsAux (r : ProductReference) :
    ∀ (l : List ProductReference) (seen : List Str), r ∈ dedupRefsAux seen l → r ∈ l := by
  intro l
  induction l with
  | nil => intro seen h; simp [dedupRefsAux] at h
  | cons x xs ih =>
    intro seen h
    rw [dedupRefsAux] at h
    split at h
    · exact List.mem_cons_of_mem x (ih _ h)
    · rcases List.mem_cons.mp h with rfl | h2
      · exact List.mem_cons_self _ _
      · exact List.mem_cons_of_mem x (ih _ h2)

/-- Everything `_extract_references` returns is a collected candidate. -/
theorem extract_references_subset (t : Str) (r : ProductReference)
    (hr : r ∈ extract_references t) : r ∈ reference_candidates t := by
  unfold extract_references at hr
  have h1 := List.take_subset 3 _ hr
  have h2 := (sortDesc_perm (fun x : ProductReference => x.confidence) _).mem_iff.mp h1
  exact mem_dedupRefsAux r _ [] h2

/-- `(i, x) ∈ enumFrom` projects to membership. -/
theorem snd_mem_of_mem_enumFrom {α : Type} :
    ∀ (l : List α) (n : Nat) (q : Nat × α), q ∈ l.enumFrom n → q.2 ∈ l := by
  intro l
  induction l with
  | nil => intro n q h; simp [List.enumFrom] at h
  | cons x xs ih =>
    intro n q h
    rw [List.enumFrom] at h
    rcases List.mem_cons.mp h with rfl | h2
    · exact List.mem_cons_self _ _
    · exact List.mem_cons_of_mem x (ih (n + 1) q h2)

/-- What `_extract_single_product` does: `none` exactly when the brand or
reference list is empty, and otherwise the top brand, top reference and the
weighted confidence. -/
theorem extract_single_product_spec (genId : Str → Nat → Str) (sec source_path : Str)
    (idx : Nat) :
    (extract_brands sec = [] ∨ extract_references sec = [] →
      extract_single_product genId sec source_path idx = none) ∧
    (∀ p, extract_single_product genId sec source_path idx = some p →
      ∃ b bs, extract_brands sec = b :: bs ∧
      ∃ r rs, extract_references sec = r :: rs ∧
        p.brand = b ∧ p.reference = r ∧
        p.extraction_confidence =
          b.confidence * 0.4 + r.confidence * 0.4 +
            min (((extract_characteristics sec).length : ℚ) / 5) 1 * 0.2) := by
  constructor
  · intro h
    unfold extract_single_product
    rcases h with h | h
    · rw [h]
    · cases hb : extract_brands sec with
      | nil => rfl
      | cons b bs => rw [h]
  · intro p hp
    unfold extract_single_product at hp
    cases hb : extract_brands sec with
    | nil => rw [hb] at hp; cases hp
    | cons b bs =>
      rw [hb] at hp
      cases hr : extract_references sec with
      | nil => rw [hr] at hp; cases hp
      | cons r rs =>
        rw [hr] at hp
        dsimp only at hp
        cases hp
        refine ⟨b, bs, rfl, r, rs, rfl, rfl, rfl, ?_⟩
        unfold calculate_extraction_confidence
        dsimp only

/-- C1: every `Product` the extract operation returns carries the top brand
and top reference of a section whose candidate lists were non-empty (an empty
list yields no product), and its `extraction_confidence` lies in `[0, 1]` and
equals brand confidence × 0.4 + reference confidence × 0.4 +
min(characteristic count / 5, 1) × 0.2. -/
theorem extraction_invariant (genId : Str → Nat → Str) (text source_path : Str)
    (p : Product) (hp : p ∈ extract_from_text genId text source_path) :
    0 ≤ p.extraction_confidence ∧ p.extraction_confidence ≤ 1 ∧
    (∃ sec ∈ split_into_product_sections text,
      ∃ b bs, extract_brands sec = b :: bs ∧
      ∃ r rs, extract_references sec = r :: rs ∧
        p.brand = b ∧ p.reference = r ∧
        p.extraction_confidence =
          b.confidence * 0.4 + r.confidence * 0.4 +
            min (((extract_characteristics sec).length : ℚ) / 5) 1 * 0.2) ∧
    (∀ (sec : Str) (idx : Nat), extract_brands sec = [] ∨ extract_references sec = [] →
        extract_single_product genId sec source_path idx = none) := by
  unfold extract_from_text extract_products_from_text at hp
  rcases List.mem_filterMap.mp hp with ⟨js, hjs, hsome⟩
  have hsec : js.2 ∈ split_into_product_sections text :=
    snd_mem_of_mem_enumFrom _ 0 js hjs
  rcases (extract_single_product_spec genId js.2 source_path js.1).2 p hsome with
    ⟨b, bs, hb, r, rs, hr, hpb, hpr, hpc⟩
  have hbmem : b ∈ extract_brands js.2 := by rw [hb]; exact List.mem_cons_self _ _
  have hrmem : r ∈ extract_references js.2 := by rw [hr]; exact List.mem_cons_self _ _
  rcases brand_candidates_confidence_range js.2 b (extract_brands_subset _ _ hbmem) with
    ⟨hb0, hb1⟩
  rcases reference_candidates_confidence_range js.2 r (extract_references_subset _ _ hrmem)
    with ⟨hr0, hr1⟩
  have hch0 : (0 : ℚ) ≤ min (((extract_characteristics js.2).length : ℚ) / 5) 1 :=
    le_min (by positivity) (by norm_num)
  have hch1 : min (((extract_characteristics js.2).length : ℚ) / 5) 1 ≤ 1 :=
    min_le_right _ _
  refine ⟨?_, ?_, ⟨js.2, hsec, b, bs, hb, r, rs, hr, hpb, hpr, hpc⟩, ?_⟩
  · rw [hpc]; nlinarith
  · rw [hpc]; nlinarith
  · intro sec idx h
    exact (extract_single_product_spec genId sec source_path idx).1 h

/-- An id generator standing in for `_generate_product_id` in the concrete
scenarios (the real one hashes source name, section index and timestamp). -/
def genIdK : Str → Nat → Str := fun _ _ => str "pid0"

/-- Scenario A's input text (one section, no newlines). -/
def tA : Str := str "Marque: BOSCH. Perceuse sans fil professionnelle. Référence: GSB120-LI. Puissance: 120W."

/-- A small input on which extraction yields one product. -/
def wText : Str := str "Marque: Acme. Ref: AB123."

unseal Rat.add Rat.mul Rat.inv Rat.sub Rat.ofScientific in
/-- C1 witness: on `wText` extraction returns one product and the invariant
holds for it. -/
theorem extraction_invariant_witness :
    ((extract_from_text genIdK wText (str "cat.pdf")).headI ∈
        extract_from_text genIdK wText (str "cat.pdf")) ∧
    (0 ≤ (extract_from_text genIdK wText (str "cat.pdf")).headI.extraction_confidence ∧
     (extract_from_text genIdK wText (str "cat.pdf")).headI.extraction_confidence ≤ 1 ∧
     (∃ sec ∈ split_into_product_sections wText,
       ∃ b bs, extract_brands sec = b :: bs ∧
       ∃ r rs, extract_references sec = r :: rs ∧
         (extract_from_text genIdK wText (str "cat.pdf")).headI.brand = b ∧
         (extract_from_text genIdK wText (str "cat.pdf")).headI.reference = r ∧
         (extract_from_text genIdK wText (str "cat.pdf")).headI.extraction_confidence =
           b.confidence * 0.4 + r.confidence * 0.4 +
             min (((extract_characteristics sec).length : ℚ) / 5) 1 * 0.2) ∧
     (∀ (sec : Str) (idx : Nat), extract_brands sec = [] ∨ extract_references sec = [] →
         extract_single_product genIdK sec (str "cat.pdf") idx = none)) :=
  ⟨by decide, extraction_invariant genIdK wText (str "cat.pdf") _ (by decide)⟩

/-! ### C6: the brand boost formula -/

/-- The brand boost exactly as the claim words it: +0.1 only per extra
occurrence beyond the first (the code counts every occurrence, including the
first). -/
def claim_brand_boost (brand text : Str) : ℚ :=
  min (0.5 + min (((countOccCI brand text - 1 : Nat) : ℚ) * 0.1) 0.3 +
       (if pyIsUpper brand then (0.1 : ℚ) else 0)) 1

/-- A section in which BOSCH occurs exactly once. -/
def c6Text : Str := str "Marque: BOSCH. Perceuse sans fil."

unseal Rat.add Rat.mul Rat.inv Rat.sub Rat.ofScientific in
/-- C6 counterexample: with a single occurrence the code's boost is
0.5 + 0.1 (for that occurrence) + 0.1 (upper case) = 0.7, while the claim's
"per extra occurrence beyond the first" formula gives 0.6; the extracted
BOSCH candidate indeed carries 0.9 × 0.7. -/
theorem brand_boost_claim_cex :
    calculate_brand_confidence (str "BOSCH") c6Text = 0.7 ∧
    claim_brand_boost (str "BOSCH") c6Text = 0.6 ∧
    calculate_brand_confidence (str "BOSCH") c6Text ≠
      claim_brand_boost (str "BOSCH") c6Text ∧
    (∃ b ∈ brand_candidates c6Text, b.name = str "BOSCH" ∧
        b.confidence = 0.9 * calculate_brand_confidence (str "BOSCH") c6Text) := by
  decide

/-- C6 amended: every validated brand candidate's confidence is its matching
pattern's `confidence_modifier` times the boost, where the boost is base 0.5,
plus 0.1 per occurrence of the candidate in the section including the first
(additive term capped at 0.3), plus 0.1 if fully uppercase, capped at 1. -/
theorem brand_confidence_formula (t : Str) (b : ProductBrand)
    (hb : b ∈ brand_candidates t) :
    (∃ pat ∈ brand_patterns,
        b.confidence = pat.confidence_modifier * calculate_brand_confidence b.name t) ∧
    calculate_brand_confidence b.name t =
      min (0.5 + min ((countOccCI b.name t : ℚ) * 0.1) 0.3 +
           (if pyIsUpper b.name then (0.1 : ℚ) else 0)) 1 := by
  rcases brand_candidates_spec t b hb with ⟨pat, hpat, hconf, _, _⟩
  exact ⟨⟨pat, hpat, hconf⟩, brand_confidence_closed_form b.name t⟩

/-- The BOSCH candidate of `c6Text`. -/
def c6Brand : ProductBrand :=
  { name := str "BOSCH", normalized_name := str "BOSCH", aliases := [], confidence := 0.63 }

unseal Rat.add Rat.mul Rat.inv Rat.sub Rat.ofScientific in
/-- C6 witness: the BOSCH candidate of `c6Text` instantiates the amended
formula. -/
theorem brand_confidence_formula_witness :
    (c6Brand ∈ brand_candidates c6Text) ∧
    ((∃ pat ∈ brand_patterns,
        c6Brand.confidence =
          pat.confidence_modifier * calculate_brand_confidence c6Brand.name c6Text) ∧
     calculate_brand_confidence c6Brand.name c6Text =
       min (0.5 + min ((countOccCI c6Brand.name c6Text : ℚ) * 0.1) 0.3 +
            (if pyIsUpper c6Brand.name then (0.1 : ℚ) else 0)) 1) :=
  ⟨by decide, brand_confidence_formula c6Text c6Brand (by decide)⟩

/-! ### C7: characteristic categories and Scenario A -/

unseal Rat.add Rat.mul Rat.inv Rat.sub Rat.ofScientific in
/-- C7 counterexample: on Scenario A's text the extracted characteristic
carries the French category "puissance", which is outside the claimed English
category set, and no characteristic carries the claimed "power". -/
theorem characteristic_category_cex :
    (∃ p ∈ extract_from_text genIdK tA (str "input.pdf"),
       ∃ c ∈ p.characteristics,
         c.category ∉ [some (str "dimension"), some (str "weight"), some (str "material"),
                       some (str "color"), some (str "electrical"), some (str "power"),
                       some (str "other")]) ∧
    (∀ p ∈ extract_from_text genIdK tA (str "input.pdf"),
       ∀ c ∈ p.characteristics, c.category ≠ some (str "power")) := by
  decide

unseal Rat.add Rat.mul Rat.inv Rat.sub Rat.ofScientific in
/-- C7 amended: every category `_categorize_characteristic` can produce is
one of the seven French tokens {dimension, poids, materiau, couleur,
electrique, puissance, autre}; and Scenario A (text with "Marque: BOSCH",
"Référence: GSB120-LI", "Puissance: 120W") yields exactly one product with
`brand.normalized_name = "BOSCH"`, `reference.normalized_reference =
"GSB120LI"` and a characteristic of category "puissance". -/
theorem characteristic_categories (name : Str) :
    categorize_characteristic name ∈
      [str "dimension", str "poids", str "materiau", str "couleur",
       str "electrique", str "puissance", str "autre"] ∧
    ((extract_from_text genIdK tA (str "input.pdf")).length = 1 ∧
     ∀ p ∈ extract_from_text genIdK tA (str "input.pdf"),
       p.brand.normalized_name = str "BOSCH" ∧
       p.reference.normalized_reference = str "GSB120LI" ∧
       ∃ c ∈ p.characteristics, c.category = some (str "puissance")) := by
  constructor
  · unfold categorize_characteristic
    dsimp only
    split_ifs <;> decide
  · decide

/-! ### C8: brand deduplication and the top-3 list -/

/-- Filtering one normalized name out of `_deduplicate_brands` keeps exactly
the first occurrence (none at all if the name was already seen). -/
theorem dedupBrandsAux_filter (k : Str) :
    ∀ (l : List ProductBrand) (seen : List Str),
      (dedupBrandsAux seen l).filter (fun b => b.normalized_name == k) =
        if k ∈ seen then []
        else (l.filter (fun b => b.normalized_name == k)).take 1 := by
  intro l
  induction l with
  | nil =>
    intro seen
    rw [dedupBrandsAux]
    split <;> simp
  | cons b bs ih =>
    intro seen
    rw [dedupBrandsAux]
    by_cases hseen : b.normalized_name ∈ seen
    · rw [if_pos hseen]
      by_cases hk : (b.normalized_name == k) = true
      · have hkm : k ∈ seen := by
          rw [beq_iff_eq] at hk
          rw [← hk]
          exact hseen
        rw [ih seen, if_pos hkm, if_pos hkm]
      · have hkB : ¬(b.normalized_name == k) = true := by simpa using hk
        rw [List.filter_cons, if_neg hkB, ih seen]
    · rw [if_neg hseen, List.filter_cons]
      by_cases hk : (b.normalized_name == k) = true
      · have hkk : b.normalized_name = k := beq_iff_eq.mp hk
        have hknotin : k ∉ seen := by
          rw [← hkk]
          exact hseen
        rw [if_pos hk, ih (b.normalized_name :: seen),
          if_pos (by rw [hkk]; exact List.mem_cons_self _ _),
          if_neg hknotin, List.filter_cons, if_pos hk]
        simp
      · have hkB : ¬(b.normalized_name == k) = true := by simpa using hk
        rw [if_neg hkB, ih (b.normalized_name :: seen)]
        have hne : (k ∈ b.normalized_name :: seen) ↔ k ∈ seen := by
          constructor
          · intro h
            rcases List.mem_cons.mp h with rfl | h2
            · exact absurd (beq_self_eq_true _) hk
            · exact h2
          · exact List.mem_cons_of_mem _
        by_cases hks : k ∈ seen
        · rw [if_pos (hne.mpr hks), if_pos hks]
        · rw [if_neg (fun h => hks (hne.mp h)), if_neg hks, List.filter_cons,
            if_neg hkB]

/-- A duplicate-free key list bounds each key's count by one. -/
theorem countP_le_one_of_nodup_keys (l : List ProductBrand) (k : Str)
    (h : (l.map (fun b => b.normalized_name)).Nodup) :
    l.countP (fun b => b.normalized_name == k) ≤ 1 := by
  induction l with
  | nil => simp
  | cons b bs ih =>
    rw [List.map_cons, List.nodup_cons] at h
    rw [List.countP_cons]
    by_cases hk : (b.normalized_name == k) = true
    · have hbk : b.normalized_name = k := beq_iff_eq.mp hk
      have hzero : bs.countP (fun x => x.normalized_name == k) = 0 := by
        rw [List.countP_eq_zero]
        intro x hx hxk
        exact h.1 (hbk ▸ (beq_iff_eq.mp hxk) ▸ List.mem_map_of_mem _ hx)
      rw [hk, hzero]
      simp
    · rw [Bool.not_eq_true] at hk
      rw [hk]
      simpa using ih h.2

unseal Rat.add Rat.mul Rat.inv Rat.sub Rat.ofScientific in
/-- C8 counterexample: in this section the string "XY" is matched by two
brand patterns (so more than once), yet the final top-3 list contains zero
brands with normalized name "XY" — three higher-confidence brands crowd it
out, so "exactly one" fails. -/
theorem brand_dedup_top3_cex :
    2 ≤ (brand_candidates (str "Marque: Alpha. Marque: Bravo. Marque: Carly. XY tool kit extra.")).countP
        (fun b => b.name == str "XY") ∧
    (extract_brands (str "Marque: Alpha. Marque: Bravo. Marque: Carly. XY tool kit extra.")).countP
        (fun b => b.normalized_name == str "XY") = 0 := by
  decide

/-- C8 amended: deduplication is keyed by `normalized_name` and keeps the
first occurrence per key in insertion order, so the final top-3 list contains
AT MOST one brand with any given normalized name (truncation to the top 3 may
drop it entirely); the retained list is sorted by confidence descending and
has at most 3 entries. -/
theorem brand_dedup_top3 (t : Str) (l : List ProductBrand) (k : Str) :
    ((deduplicate_brands l).filter (fun b => b.normalized_name == k) =
      (l.filter (fun b => b.normalized_name == k)).take 1) ∧
    (extract_brands t).length ≤ 3 ∧
    SortedDesc (fun b => b.confidence) (extract_brands t) ∧
    (extract_brands t).countP (fun b => b.normalized_name == k) ≤ 1 := by
  have hfilter : ∀ (l2 : List ProductBrand),
      (deduplicate_brands l2).filter (fun b => b.normalized_name == k) =
        (l2.filter (fun b => b.normalized_name == k)).take 1 := by
    intro l2
    rw [deduplicate_brands, dedupBrandsAux_filter k l2 []]
    simp
  refine ⟨hfilter l, ?_, ?_, ?_⟩
  · unfold extract_brands
    simpa using List.length_take_le 3 _
  · unfold extract_brands
    have hs := sortDesc_sorted (fun b : ProductBrand => b.confidence)
      (deduplicate_brands (brand_candidates t))
    exact List.Pairwise.sublist (List.take_sublist 3 _) hs
  · unfold extract_brands
    have h1 : ((sortDesc (fun b : ProductBrand => b.confidence)
        (deduplicate_brands (brand_candidates t))).take 3).countP
          (fun b => b.normalized_name == k) ≤
        (sortDesc (fun b : ProductBrand => b.confidence)
          (deduplicate_brands (brand_candidates t))).countP
          (fun b => b.normalized_name == k) :=
      (List.take_sublist 3 _).countP_le _
    have h2 : (sortDesc (fun b : ProductBrand => b.confidence)
        (deduplicate_brands (brand_candidates t))).countP
          (fun b => b.normalized_name == k) =
        (deduplicate_brands (brand_candidates t)).countP
          (fun b => b.normalized_name == k) :=
      (sortDesc_perm _ _).countP_eq _
    have h3 : (deduplicate_brands (brand_candidates t)).countP
        (fun b => b.normalized_name == k) ≤ 1 := by
      rw [List.countP_eq_length_filter, hfilter (brand_candidates t)]
      simpa using List.length_take_le 1 _
    omega

/-! ### C9: product name selection -/

/-- The product-name rule as the spec describes it, with the corrected
placeholder literal "Produit extrait": the first stripped line of length in
(10,100) that is neither a digit-enumerator nor all-caps; else the first
non-empty stripped line truncated to 80 characters; else the placeholder. -/
def spec_product_name (text : Str) : Str :=
  match ((splitOnNL text).map pyStrip).find? (fun line =>
      decide (10 < line.length) && decide (line.length < 100) &&
      !reMatchB productNameEnumRE line && !reMatchB productNameCapsRE line) with
  | some line => line
  | none =>
    match ((splitOnNL text).map pyStrip).find? (fun line => !line.isEmpty) with
    | some line => line.take 80
    | none => str "Produit extrait"

/-- The first loop of `_extract_product_name` is a `find?` over the stripped
lines. -/
theorem namePass1_eq_find (lines : List Str) :
    namePass1 lines = (lines.map pyStrip).find? (fun line =>
      decide (10 < line.length) && decide (line.length < 100) &&
      !reMatchB productNameEnumRE line && !reMatchB productNameCapsRE line) := by
  induction lines with
  | nil => rfl
  | cons ln rest ih =>
    rw [namePass1, List.map_cons, List.find?_cons]
    by_cases h : 10 < (pyStrip ln).length ∧ (pyStrip ln).length < 100 ∧
        reMatchB productNameEnumRE (pyStrip ln) = false ∧
        reMatchB productNameCapsRE (pyStrip ln) = false
    · rw [if_pos h]
      have hb : (decide (10 < (pyStrip ln).length) && decide ((pyStrip ln).length < 100) &&
          !reMatchB productNameEnumRE (pyStrip ln) &&
          !reMatchB productNameCapsRE (pyStrip ln)) = true := by
        rcases h with ⟨h1, h2, h3, h4⟩
        simp [h1, h2, h3, h4]
      rw [hb]
    · rw [if_neg h]
      have hb : (decide (10 < (pyStrip ln).length) && decide ((pyStrip ln).length < 100) &&
          !reMatchB productNameEnumRE (pyStrip ln) &&
          !reMatchB productNameCapsRE (pyStrip ln)) = false := by
        rw [Bool.eq_false_iff]
        intro hcontra
        apply h
        simp only [Bool.and_eq_true, decide_eq_true_eq, Bool.not_eq_true'] at hcontra
        exact ⟨hcontra.1.1.1, hcontra.1.1.2, hcontra.1.2, hcontra.2⟩
      rw [hb, ih]

/-- The second loop of `_extract_product_name` is a `find?` plus truncation. -/
theorem namePass2_eq_find (lines : List Str) :
    namePass2 lines = ((lines.map pyStrip).find? (fun line => !line.isEmpty)).map
      (fun line => line.take 80) := by
  induction lines with
  | nil => rfl
  | cons ln rest ih =>
    rw [namePass2, List.map_cons, List.find?_cons]
    by_cases h : pyStrip ln ≠ []
    · rw [if_pos h]
      have hb : (!(pyStrip ln).isEmpty) = true := by
        cases hpe : (pyStrip ln).isEmpty with
        | true => exact absurd (List.isEmpty_iff.mp hpe) h
        | false => rfl
      rw [hb]
      rfl
    · rw [if_neg h]
      have hb : (!(pyStrip ln).isEmpty) = false := by
        rw [not_ne_iff] at h
        simp [h]
      rw [hb, ih]

/-- C9 counterexample: a section with no non-empty line gets the literal
placeholder "Produit extrait", not the claimed "extracted product". -/
theorem product_name_placeholder_cex :
    extract_product_name (str "") = str "Produit extrait" ∧
    extract_product_name (str " \n  ") = str "Produit extrait" ∧
    str "Produit extrait" ≠ str "extracted product" := by decide

/-- C9 amended: the extracted product name follows exactly the claimed
selection rule — first stripped line of length strictly between 10 and 100
that is neither a pure digit-enumerator nor all-caps, else the first
non-empty stripped line truncated to 80 characters — but the placeholder for
a section with no non-empty line is the code's literal "Produit extrait",
not "extracted product". -/
theorem product_name_selection (text : Str) :
    extract_product_name text = spec_product_name text := by
  unfold extract_product_name spec_product_name
  rw [namePass1_eq_find, namePass2_eq_find]
  cases ((splitOnNL text).map pyStrip).find? (fun line =>
      decide (10 < line.length) && decide (line.length < 100) &&
      !reMatchB productNameEnumRE line && !reMatchB productNameCapsRE line) with
  | some line => rfl
  | none =>
    cases ((splitOnNL text).map pyStrip).find? (fun line => !line.isEmpty) with
    | some line => rfl
    | none => rfl

/-! ### C3: the fusion dict -/

theorem alookup_dictSet_self {V : Type} (k : Option Str) (v : V)
    (d : List (Option Str × V)) : alookup k (dictSet k v d) = some v := by
  induction d with
  | nil => simp [dictSet, alookup]
  | cons e rest ih =>
    obtain ⟨k2, v2⟩ := e
    rw [dictSet]
    by_cases h : k2 = k
    · rw [if_pos h, alookup, if_pos rfl]
    · rw [if_neg h, alookup, if_neg h, ih]

theorem alookup_dictSet_ne {V : Type} (k k2 : Option Str) (v : V)
    (d : List (Option Str × V)) (h : k2 ≠ k) :
    alookup k2 (dictSet k v d) = alookup k2 d := by
  induction d with
  | nil =>
    simp [dictSet, alookup, Ne.symm h]
  | cons e rest ih =>
    obtain ⟨k3, v3⟩ := e
    rw [dictSet]
    by_cases h3 : k3 = k
    · rw [if_pos h3, alookup, alookup, if_neg (Ne.symm h), if_neg (h3 ▸ Ne.symm h)]
    · rw [if_neg h3, alookup, alookup]
      by_cases h32 : k3 = k2
      · rw [if_pos h32, if_pos h32]
      · rw [if_neg h32, if_neg h32, ih]

theorem alookup_dictSet_isSome {V : Type} (k k2 : Option Str) (v : V)
    (d : List (Option Str × V)) :
    (alookup k2 (dictSet k v d)).isSome = true ↔
      k2 = k ∨ (alookup k2 d).isSome = true := by
  by_cases h : k2 = k
  · subst h
    rw [alookup_dictSet_self]
    simp
  · rw [alookup_dictSet_ne k k2 v d h]
    simp [h]

theorem mem_values_of_alookup {V : Type} (k : Option Str) (d : List (Option Str × V))
    (v : V) (h : alookup k d = some v) : v ∈ d.map (fun e => e.2) := by
  induction d with
  | nil => simp [alookup] at h
  | cons e rest ih =>
    obtain ⟨k2, v2⟩ := e
    rw [alookup] at h
    by_cases hk : k2 = k
    · rw [if_pos hk] at h
      cases h
      rw [List.map_cons]
      exact List.mem_cons_self _ _
    · rw [if_neg hk] at h
      rw [List.map_cons]
      exact List.mem_cons_of_mem _ (ih h)

theorem alookup_isSome_of_mem {V : Type} (d : List (Option Str × V))
    (e : Option Str × V) (he : e ∈ d) : (alookup e.1 d).isSome = true := by
  induction d with
  | nil => simp at he
  | cons e2 rest ih =>
    obtain ⟨k2, v2⟩ := e2
    rw [alookup]
    by_cases hk : k2 = e.1
    · rw [if_pos hk]
      rfl
    · rw [if_neg hk]
      rcases List.mem_cons.mp he with rfl | h2
      · exact absurd rfl hk
      · exact ih h2

theorem combineSemPhase_cons (w : ℚ) (r : Product × ℚ) (rest : List (Product × ℚ))
    (d : List (Option Str × (Product × ℚ))) :
    combineSemPhase w (r :: rest) d =
      combineSemPhase w rest (dictSet r.1.id (r.1, r.2 * w) d) := rfl

theorem combineBmPhase_cons (w : ℚ) (r : Product × ℚ) (rest : List (Product × ℚ))
    (d : List (Option Str × (Product × ℚ))) :
    combineBmPhase w (r :: rest) d =
      combineBmPhase w rest
        (match alookup r.1.id d with
         | some ev => dictSet r.1.id (ev.1, ev.2 + r.2 * w) d
         | none => dictSet r.1.id (r.1, r.2 * w) d) := rfl

theorem combineSemPhase_notin (w : ℚ) (k : Option Str) :
    ∀ (sem : List (Product × ℚ)) (d : List (Option Str × (Product × ℚ))),
      (∀ r ∈ sem, r.1.id ≠ k) →
      alookup k (combineSemPhase w sem d) = alookup k d := by
  intro sem
  induction sem with
  | nil => intro d _; rfl
  | cons r rest ih =>
    intro d h
    rw [combineSemPhase_cons,
      ih _ (fun x hx => h x (List.mem_cons_of_mem _ hx)),
      alookup_dictSet_ne _ _ _ _ (Ne.symm (h r (List.mem_cons_self _ _)))]

theorem combineBmPhase_notin (w : ℚ) (k : Option Str) :
    ∀ (bm : List (Product × ℚ)) (d : List (Option Str × (Product × ℚ))),
      (∀ r ∈ bm, r.1.id ≠ k) →
      alookup k (combineBmPhase w bm d) = alookup k d := by
  intro bm
  induction bm with
  | nil => intro d _; rfl
  | cons r rest ih =>
    intro d h
    rw [combineBmPhase_cons, ih _ (fun x hx => h x (List.mem_cons_of_mem _ hx))]
    cases alookup r.1.id d with
    | some ev => exact alookup_dictSet_ne _ _ _ _ (Ne.symm (h r (List.mem_cons_self _ _)))
    | none => exact alookup_dictSet_ne _ _ _ _ (Ne.symm (h r (List.mem_cons_self _ _)))

theorem combineSemPhase_lookup (w : ℚ) :
    ∀ (sem : List (Product × ℚ)) (d : List (Option Str × (Product × ℚ)))
      (p : Product) (s : ℚ),
      (sem.map (fun r => r.1.id)).Nodup → (p, s) ∈ sem →
      alookup p.id (combineSemPhase w sem d) = some (p, s * w) := by
  intro sem
  induction sem with
  | nil =>
    intro d p s _ hmem
    simp at hmem
  | cons r rest ih =>
    intro d p s hnd hmem
    rw [List.map_cons, List.nodup_cons] at hnd
    rcases List.mem_cons.mp hmem with heq | hmem2
    · cases heq
      have hrest : ∀ x ∈ rest, x.1.id ≠ p.id := by
        intro x hx hxk
        exact hnd.1 (hxk ▸ List.mem_map_of_mem _ hx)
      rw [combineSemPhase_cons, combineSemPhase_notin w p.id rest _ hrest,
        alookup_dictSet_self]
    · rw [combineSemPhase_cons]
      exact ih _ p s hnd.2 hmem2

theorem combineBmPhase_lookup (w : ℚ) :
    ∀ (bm : List (Product × ℚ)) (d : List (Option Str × (Product × ℚ)))
      (q : Product) (l : ℚ),
      (bm.map (fun r => r.1.id)).Nodup → (q, l) ∈ bm →
      alookup q.id (combineBmPhase w bm d) =
        match alookup q.id d with
        | some ev => some (ev.1, ev.2 + l * w)
        | none => some (q, l * w) := by
  intro bm
  induction bm with
  | nil =>
    intro d q l _ hmem
    simp at hmem
  | cons r rest ih =>
    intro d q l hnd hmem
    rw [List.map_cons, List.nodup_cons] at hnd
    rcases List.mem_cons.mp hmem with heq | hmem2
    · cases heq
      have hrest : ∀ x ∈ rest, x.1.id ≠ q.id := by
        intro x hx hxk
        exact hnd.1 (hxk ▸ List.mem_map_of_mem _ hx)
      rw [combineBmPhase_cons, combineBmPhase_notin w q.id rest _ hrest]
      cases alookup q.id d with
      | some ev => exact alookup_dictSet_self _ _ _
      | none => exact alookup_dictSet_self _ _ _
    · have hne : q.id ≠ r.1.id := by
        intro hqr
        apply hnd.1
        rw [← hqr]
        exact List.mem_map_of_mem (fun x : Product × ℚ => x.1.id) hmem2
      rw [combineBmPhase_cons]
      have hstep : alookup q.id
          (match alookup r.1.id d with
           | some ev => dictSet r.1.id (ev.1, ev.2 + r.2 * w) d
           | none => dictSet r.1.id (r.1, r.2 * w) d) = alookup q.id d := by
        cases alookup r.1.id d with
        | some ev => exact alookup_dictSet_ne _ _ _ _ hne
        | none => exact alookup_dictSet_ne _ _ _ _ hne
      rw [ih _ q l hnd.2 hmem2, hstep]

theorem combineSemPhase_keys (w : ℚ) (k : Option Str) :
    ∀ (sem : List (Product × ℚ)) (d : List (Option Str × (Product × ℚ))),
      (alookup k (combineSemPhase w sem d)).isSome = true ↔
        (alookup k d).isSome = true ∨ k ∈ sem.map (fun r => r.1.id) := by
  intro sem
  induction sem with
  | nil =>
    intro d
    simp [combineSemPhase]
  | cons r rest ih =>
    intro d
    rw [combineSemPhase_cons, ih, alookup_dictSet_isSome, List.map_cons, List.mem_cons]
    tauto

theorem combineBmPhase_keys (w : ℚ) (k : Option Str) :
    ∀ (bm : List (Product × ℚ)) (d : List (Option Str × (Product × ℚ))),
      (alookup k (combineBmPhase w bm d)).isSome = true ↔
        (alookup k d).isSome = true ∨ k ∈ bm.map (fun r => r.1.id) := by
  intro bm
  induction bm with
  | nil =>
    intro d
    simp [combineBmPhase]
  | cons r rest ih =>
    intro d
    rw [combineBmPhase_cons, ih, List.map_cons, List.mem_cons]
    cases alookup r.1.id d with
    | some ev => rw [alookup_dictSet_isSome]; tauto
    | none => rw [alookup_dictSet_isSome]; tauto

/-- Every dict entry's stored product carries the entry's key as its id. -/
def DictKeyInv (d : List (Option Str × (Product × ℚ))) : Prop :=
  ∀ e ∈ d, e.2.1.id = e.1

theorem dictSet_keyinv (d : List (Option Str × (Product × ℚ))) (k : Option Str)
    (v : Product × ℚ) (hd : DictKeyInv d) (hv : v.1.id = k) :
    DictKeyInv (dictSet k v d) := by
  induction d with
  | nil =>
    intro e he
    rcases List.mem_singleton.mp he with rfl
    exact hv
  | cons e2 rest ih =>
    obtain ⟨k2, v2⟩ := e2
    rw [dictSet]
    by_cases h : k2 = k
    · rw [if_pos h]
      intro e he
      rcases List.mem_cons.mp he with rfl | h2
      · exact hv
      · exact hd e (List.mem_cons_of_mem _ h2)
    · rw [if_neg h]
      intro e he
      rcases List.mem_cons.mp he with rfl | h2
      · exact hd _ (List.mem_cons_self _ _)
      · exact ih (fun x hx => hd x (List.mem_cons_of_mem _ hx)) e h2

theorem alookup_keyinv (d : List (Option Str × (Product × ℚ))) (k : Option Str)
    (v : Product × ℚ) (hd : DictKeyInv d) (h : alookup k d = some v) : v.1.id = k := by
  induction d with
  | nil => simp [alookup] at h
  | cons e rest ih =>
    obtain ⟨k2, v2⟩ := e
    rw [alookup] at h
    by_cases hk : k2 = k
    · rw [if_pos hk] at h
      cases h
      exact hk ▸ hd (k2, v) (List.mem_cons_self _ _)
    · rw [if_neg hk] at h
      exact ih (fun x hx => hd x (List.mem_cons_of_mem _ hx)) h

theorem combineSemPhase_keyinv (w : ℚ) :
    ∀ (sem : List (Product × ℚ)) (d : List (Option Str × (Product × ℚ))),
      DictKeyInv d → DictKeyInv (combineSemPhase w sem d) := by
  intro sem
  induction sem with
  | nil => intro d hd; exact hd
  | cons r rest ih =>
    intro d hd
    rw [combineSemPhase_cons]
    exact ih _ (dictSet_keyinv d _ _ hd rfl)

theorem combineBmPhase_keyinv (w : ℚ) :
    ∀ (bm : List (Product × ℚ)) (d : List (Option Str × (Product × ℚ))),
      DictKeyInv d → DictKeyInv (combineBmPhase w bm d) := by
  intro bm
  induction bm with
  | nil => intro d hd; exact hd
  | cons r rest ih =>
    intro d hd
    rw [combineBmPhase_cons]
    cases hex : alookup r.1.id d with
    | some ev =>
      have hev : ev.1.id = r.1.id := alookup_keyinv d _ ev hd hex
      exact ih _ (dictSet_keyinv d _ _ hd hev)
    | none =>
      exact ih _ (dictSet_keyinv d _ _ hd rfl)

/-- C3: the fusion law of the general/hybrid stage.  For nodup semantic and
lexical result sets: a product present in both (with nonnegative scores)
appears in the fused output with combined score semantic × 0.7 +
lexical × 0.3, bounded below by max(0.7·s, 0.3·l) and above by
0.7·s + 0.3·l; a product present in only one result set appears with the
missing score contributing 0 (semantic-only at 0.7·s, lexical-only at
0.3·l); the fused ids are the union of both id sets; the output is sorted by
combined score descending; and `_hybrid_search` truncates it to
`max_results`. -/
theorem hybrid_fusion_law (semantic_results bm25_results : List (Product × ℚ))
    (p q : Product) (s l : ℚ)
    (hsem : (semantic_results.map (fun r => r.1.id)).Nodup)
    (hlex : (bm25_results.map (fun r => r.1.id)).Nodup)
    (hs : (p, s) ∈ semantic_results) (hl : (q, l) ∈ bm25_results)
    (hid : q.id = p.id) (hs0 : 0 ≤ s) (hl0 : 0 ≤ l) :
    ((p, s * 0.7 + l * 0.3) ∈ combine_search_results semantic_results bm25_results) ∧
    (∀ (p2 : Product) (s2 : ℚ), (p2, s2) ∈ semantic_results →
        p2.id ∉ bm25_results.map (fun r => r.1.id) →
        (p2, s2 * 0.7) ∈ combine_search_results semantic_results bm25_results) ∧
    (∀ (q2 : Product) (l2 : ℚ), (q2, l2) ∈ bm25_results →
        q2.id ∉ semantic_results.map (fun r => r.1.id) →
        (q2, l2 * 0.3) ∈ combine_search_results semantic_results bm25_results) ∧
    max (s * 0.7) (l * 0.3) ≤ s * 0.7 + l * 0.3 ∧
    (∀ k, k ∈ (combine_search_results semantic_results bm25_results).map
          (fun r => r.1.id) ↔
        (k ∈ semantic_results.map (fun r => r.1.id) ∨
         k ∈ bm25_results.map (fun r => r.1.id))) ∧
    SortedDesc (fun r => r.2) (combine_search_results semantic_results bm25_results) ∧
    (∀ n, hybrid_fuse semantic_results bm25_results n =
        (combine_search_results semantic_results bm25_results).take n ∧
      (hybrid_fuse semantic_results bm25_results n).length ≤ n) := by
  have hd1inv : DictKeyInv (combineSemPhase 0.7 semantic_results []) :=
    combineSemPhase_keyinv 0.7 semantic_results [] (by intro e he; simp at he)
  have hd2inv : DictKeyInv
      (combineBmPhase 0.3 bm25_results (combineSemPhase 0.7 semantic_results [])) :=
    combineBmPhase_keyinv 0.3 bm25_results _ hd1inv
  have h1 : alookup p.id (combineSemPhase 0.7 semantic_results []) = some (p, s * 0.7) :=
    combineSemPhase_lookup 0.7 semantic_results [] p s hsem hs
  have h2 : alookup p.id
      (combineBmPhase 0.3 bm25_results (combineSemPhase 0.7 semantic_results [])) =
        some (p, s * 0.7 + l * 0.3) := by
    have h3 := combineBmPhase_lookup 0.3 bm25_results
      (combineSemPhase 0.7 semantic_results []) q l hlex hl
    rw [hid, h1] at h3
    exact h3
  refine ⟨?_, ?_, ?_, ?_, ?_, ?_, ?_⟩
  · have hv := mem_values_of_alookup _ _ _ h2
    have hperm := sortDesc_perm (fun x : Product × ℚ => x.2)
      ((combineBmPhase 0.3 bm25_results
        (combineSemPhase 0.7 semantic_results [])).map (fun e => e.2))
    exact hperm.mem_iff.mpr hv
  · intro p2 s2 hmem hnot
    have hno : ∀ r ∈ bm25_results, r.1.id ≠ p2.id := by
      intro r hr hrk
      exact hnot (hrk ▸ List.mem_map_of_mem (fun x : Product × ℚ => x.1.id) hr)
    have hone : alookup p2.id (combineSemPhase 0.7 semantic_results []) =
        some (p2, s2 * 0.7) :=
      combineSemPhase_lookup 0.7 semantic_results [] p2 s2 hsem hmem
    have htwo : alookup p2.id
        (combineBmPhase 0.3 bm25_results (combineSemPhase 0.7 semantic_results [])) =
          some (p2, s2 * 0.7) := by
      rw [combineBmPhase_notin 0.3 p2.id bm25_results _ hno, hone]
    have hv := mem_values_of_alookup _ _ _ htwo
    exact ((sortDesc_perm (fun x : Product × ℚ => x.2) _).mem_iff).mpr hv
  · intro q2 l2 hmem hnot
    have hno : ∀ r ∈ semantic_results, r.1.id ≠ q2.id := by
      intro r hr hrk
      exact hnot (hrk ▸ List.mem_map_of_mem (fun x : Product × ℚ => x.1.id) hr)
    have hnone : alookup q2.id (combineSemPhase 0.7 semantic_results []) = none := by
      rw [combineSemPhase_notin 0.7 q2.id semantic_results [] hno]
      rfl
    have h3 := combineBmPhase_lookup 0.3 bm25_results
      (combineSemPhase 0.7 semantic_results []) q2 l2 hlex hmem
    rw [hnone] at h3
    have hv := mem_values_of_alookup _ _ _ h3
    exact ((sortDesc_perm (fun x : Product × ℚ => x.2) _).mem_iff).mpr hv
  · exact max_le (by linarith) (by linarith)
  · intro k
    constructor
    · intro hk
      rcases List.mem_map.mp hk with ⟨r, hr, hrk⟩
      have hr2 : r ∈ (combineBmPhase 0.3 bm25_results
          (combineSemPhase 0.7 semantic_results [])).map (fun e => e.2) :=
        (sortDesc_perm (fun x : Product × ℚ => x.2) _).mem_iff.mp hr
      rcases List.mem_map.mp hr2 with ⟨e, he, hev⟩
      have hkey : r.1.id = e.1 := hev ▸ hd2inv e he
      have hsome := alookup_isSome_of_mem _ e he
      rw [← hkey, hrk] at hsome
      rw [combineBmPhase_keys, combineSemPhase_keys] at hsome
      simpa [alookup] using hsome
    · intro hk
      have hsome : (alookup k (combineBmPhase 0.3 bm25_results
          (combineSemPhase 0.7 semantic_results []))).isSome = true := by
        rw [combineBmPhase_keys, combineSemPhase_keys]
        simpa [alookup] using hk
      rcases Option.isSome_iff_exists.mp hsome with ⟨v, hv⟩
      have hvid : v.1.id = k := alookup_keyinv _ _ _ hd2inv hv
      have hvmem := mem_values_of_alookup _ _ _ hv
      have hvout : v ∈ combine_search_results semantic_results bm25_results :=
        (sortDesc_perm (fun x : Product × ℚ => x.2) _).mem_iff.mpr hvmem
      rw [← hvid]
      exact List.mem_map_of_mem _ hvout
  · exact sortDesc_sorted _ _
  · intro n
    exact ⟨rfl, List.length_take_le n _⟩

/-- A concrete product for the fusion witness. -/
def fuseP1 : Product :=
  { id := some (str "id1"), name := str "P one",
    brand := ⟨str "B", str "B", [], 1⟩,
    reference := ⟨str "R1", str "R1", none, 1⟩, characteristics := [],
    source_document := none, extraction_confidence := 1 }

/-- A second concrete product for the fusion witness (semantic-only). -/
def fuseP2 : Product :=
  { id := some (str "id2"), name := str "P two",
    brand := ⟨str "C", str "C", [], 1⟩,
    reference := ⟨str "R2", str "R2", none, 1⟩, characteristics := [],
    source_document := none, extraction_confidence := 1 }

/-- A third concrete product for the fusion witness (lexical-only). -/
def fuseP3 : Product :=
  { id := some (str "id3"), name := str "P three",
    brand := ⟨str "D", str "D", [], 1⟩,
    reference := ⟨str "R3", str "R3", none, 1⟩, characteristics := [],
    source_document := none, extraction_confidence := 1 }

unseal Rat.add Rat.mul Rat.inv Rat.sub Rat.ofScientific in
/-- C3 witness: two semantic results and two lexical results — one product
in both sets, one semantic-only, one lexical-only — instantiate the fusion
law. -/
theorem hybrid_fusion_law_witness :
    ((fuseP1, (0.9 : ℚ) * 0.7 + (0.4 : ℚ) * 0.3) ∈
        combine_search_results [(fuseP1, 0.9), (fuseP2, 0.5)]
          [(fuseP1, 0.4), (fuseP3, 0.2)]) ∧
    (∀ (p2 : Product) (s2 : ℚ), (p2, s2) ∈ [(fuseP1, (0.9 : ℚ)), (fuseP2, (0.5 : ℚ))] →
        p2.id ∉ [(fuseP1, (0.4 : ℚ)), (fuseP3, (0.2 : ℚ))].map (fun r => r.1.id) →
        (p2, s2 * 0.7) ∈ combine_search_results [(fuseP1, 0.9), (fuseP2, 0.5)]
          [(fuseP1, 0.4), (fuseP3, 0.2)]) ∧
    (∀ (q2 : Product) (l2 : ℚ), (q2, l2) ∈ [(fuseP1, (0.4 : ℚ)), (fuseP3, (0.2 : ℚ))] →
        q2.id ∉ [(fuseP1, (0.9 : ℚ)), (fuseP2, (0.5 : ℚ))].map (fun r => r.1.id) →
        (q2, l2 * 0.3) ∈ combine_search_results [(fuseP1, 0.9), (fuseP2, 0.5)]
          [(fuseP1, 0.4), (fuseP3, 0.2)]) ∧
    max ((0.9 : ℚ) * 0.7) ((0.4 : ℚ) * 0.3) ≤ (0.9 : ℚ) * 0.7 + (0.4 : ℚ) * 0.3 ∧
    (∀ k, k ∈ (combine_search_results [(fuseP1, 0.9), (fuseP2, 0.5)]
          [(fuseP1, 0.4), (fuseP3, 0.2)]).map (fun r => r.1.id) ↔
        (k ∈ [(fuseP1, (0.9 : ℚ)), (fuseP2, (0.5 : ℚ))].map (fun r => r.1.id) ∨
         k ∈ [(fuseP1, (0.4 : ℚ)), (fuseP3, (0.2 : ℚ))].map (fun r => r.1.id))) ∧
    SortedDesc (fun r => r.2)
      (combine_search_results [(fuseP1, 0.9), (fuseP2, 0.5)]
        [(fuseP1, 0.4), (fuseP3, 0.2)]) ∧
    (∀ n, hybrid_fuse [(fuseP1, 0.9), (fuseP2, 0.5)] [(fuseP1, 0.4), (fuseP3, 0.2)] n =
        (combine_search_results [(fuseP1, 0.9), (fuseP2, 0.5)]
          [(fuseP1, 0.4), (fuseP3, 0.2)]).take n ∧
      (hybrid_fuse [(fuseP1, 0.9), (fuseP2, 0.5)]
          [(fuseP1, 0.4), (fuseP3, 0.2)] n).length ≤ n) :=
  hybrid_fusion_law [(fuseP1, 0.9), (fuseP2, 0.5)] [(fuseP1, 0.4), (fuseP3, 0.2)]
    fuseP1 fuseP1 0.9 0.4
    (by decide) (by decide) (by decide) (by decide) rfl (by decide) (by decide)

end RagAssist
